import Mathlib

/-!
Verification of the InputBar autocomplete widget (src/inputbar.go of
kopecmaciej/tview) against its natural-language specification.

The development embeds the widget shallowly:

* pure helpers (candidate ranking, popup geometry) become Lean functions
  translated line by line from the Go source;
* the stateful input handler becomes a step function on an explicit
  InputBar state record; a Go panic (nil pointer dereference, index out
  of range) is modelled as the result None;
* the external collaborators that the repository keeps outside
  src/inputbar.go (the TextArea text buffer, the List popup widget, the
  tag-stripping and tagged-width text utilities) are modelled from the
  specification's collaborator contracts (sections 4.3, 4.4, 9 of the
  spec); each such definition carries a doc comment saying so.

The call sort.Slice(items, less) in SetAutocompleteList is embedded as
the sorting algorithm of the Go 1.18 standard library (go.mod declares
go 1.18): quickSort_func of src/sort/zfuncversion.go, whose small-range
path (length at most 12) is a shell-sort pass with gap 6 followed by an
insertion sort, and whose large-range path is median-of-three quicksort
with a heap-sort fallback.  sort.Slice is documented as not stable.

Loops whose counter is not itself structurally decreasing are written
with an explicit fuel argument so that every definition reduces inside
the kernel; each caller passes fuel that provably dominates the
iteration count, so the fuel-exhausted branch is never taken.
-/

/-- AutocompleteItem, src/inputbar.go lines 14-18. -/
structure AutocompleteItem where
  Value : String
  Description : String
  Priority : Int
  deriving DecidableEq, Repr

/-- Default item used by the total indexing helper (never observable:
the sorting code only indexes in bounds, as the Go original does). -/
def itemD : AutocompleteItem := ⟨"", "", 0⟩

/-- Indexing into the candidate slice, items[i]. -/
def geti (l : List AutocompleteItem) (i : Nat) : AutocompleteItem :=
  l.getD i itemD

/-- data.Less(i, j) of the lessSwap closure built by sort.Slice in
SetAutocompleteList (src/inputbar.go lines 142-144):
items[i].Priority > items[j].Priority. -/
def lessIdx (l : List AutocompleteItem) (i j : Nat) : Bool :=
  (geti l i).Priority > (geti l j).Priority

/-- data.Swap(i, j) of the lessSwap closure: exchange the slice entries
at positions i and j.  Out-of-range indices (which would panic in Go and
never occur in the algorithm) leave the list unchanged. -/
def lswap (l : List AutocompleteItem) (i j : Nat) : List AutocompleteItem :=
  if i < l.length ∧ j < l.length then
    (l.set i (geti l j)).set j (geti l i)
  else l

/-- insertionSort_func inner loop (Go 1.18 src/sort/zfuncversion.go):
for j := i; j > a and data.Less(j, j-1); j-- do data.Swap(j, j-1). -/
def insStep (l : List AutocompleteItem) (a : Nat) : Nat → List AutocompleteItem
  | 0 => l
  | j + 1 =>
    if a < j + 1 ∧ lessIdx l (j + 1) j then insStep (lswap l (j + 1) j) a j else l

/-- insertionSort_func outer loop: for i := a+1; i < b; i++; the first
argument is fuel dominating the remaining iteration count b - i. -/
def insSortGo (a b : Nat) : Nat → List AutocompleteItem → Nat → List AutocompleteItem
  | 0, l, _ => l
  | fuel + 1, l, i => if i < b then insSortGo a b fuel (insStep l a i) (i + 1) else l

/-- insertionSort_func(data, a, b) of Go 1.18. -/
def insertionSortFunc (l : List AutocompleteItem) (a b : Nat) : List AutocompleteItem :=
  insSortGo a b (b - a) l (a + 1)

/-- The shell-sort pass with gap 6 that quickSort_func runs on ranges of
length at most 12: for i := a+6; i < b; i++ { if Less(i, i-6) swap };
the first argument is fuel dominating b - i. -/
def shellGo (b : Nat) : Nat → List AutocompleteItem → Nat → List AutocompleteItem
  | 0, l, _ => l
  | fuel + 1, l, i =>
    if i < b then
      shellGo b fuel (if lessIdx l i (i - 6) then lswap l i (i - 6) else l) (i + 1)
    else l

/-- The shell-sort pass over the range [a, b). -/
def shellPass (l : List AutocompleteItem) (a b : Nat) : List AutocompleteItem :=
  shellGo b (b - a) l (a + 6)

/-- siftDown_func loop of Go 1.18; the first argument is fuel dominating
hi - root (the root at least doubles each iteration). -/
def siftDownGo (hi first : Nat) : Nat → List AutocompleteItem → Nat → List AutocompleteItem
  | 0, l, _ => l
  | fuel + 1, l, root =>
    let child := 2 * root + 1
    if child < hi then
      let child2 := if child + 1 < hi ∧ lessIdx l (first + child) (first + child + 1)
        then child + 1 else child
      if lessIdx l (first + root) (first + child2) then
        siftDownGo hi first fuel (lswap l (first + root) (first + child2)) child2
      else l
    else l

/-- siftDown_func(data, lo, hi, first) of Go 1.18. -/
def siftDownFrom (l : List AutocompleteItem) (lo hi first : Nat) : List AutocompleteItem :=
  siftDownGo hi first hi l lo

/-- heapSort_func first loop: for i := (hi-1)/2; i >= 0; i--, running
siftDown_func(data, i, hi, first); n counts the remaining values of i. -/
def heapify (l : List AutocompleteItem) (hi first : Nat) : Nat → List AutocompleteItem
  | 0 => l
  | n + 1 => heapify (siftDownFrom l n hi first) hi first n

/-- heapSort_func second loop: for i := hi-1; i >= 0; i--, swapping
first with first+i and sifting down; n counts the remaining values. -/
def heapExtract (l : List AutocompleteItem) (first : Nat) : Nat → List AutocompleteItem
  | 0 => l
  | n + 1 => heapExtract (siftDownFrom (lswap l first (first + n)) 0 n first) first n

/-- heapSort_func(data, a, b) of Go 1.18. -/
def heapSortFunc (l : List AutocompleteItem) (a b : Nat) : List AutocompleteItem :=
  let first := a
  let hi := b - a
  heapExtract (heapify l hi first ((hi - 1) / 2 + 1)) first hi

/-- medianOfThree_func(data, m1, m0, m2) of Go 1.18. -/
def medianOfThree (l : List AutocompleteItem) (m1 m0 m2 : Nat) : List AutocompleteItem :=
  let l1 := if lessIdx l m1 m0 then lswap l m1 m0 else l
  if lessIdx l1 m2 m1 then
    let l2 := lswap l1 m2 m1
    if lessIdx l2 m1 m0 then lswap l2 m1 m0 else l2
  else l1

/-- doPivot_func scan: for ; a < c and data.Less(a, pivot); a++; fuel
dominates c - a. -/
def scanAGo (l : List AutocompleteItem) (pivot c : Nat) : Nat → Nat → Nat
  | 0, a => a
  | fuel + 1, a => if a < c ∧ lessIdx l a pivot then scanAGo l pivot c fuel (a + 1) else a

/-- doPivot_func scan: for ; b < c and not data.Less(pivot, b); b++;
fuel dominates c - b. -/
def scanBGo (l : List AutocompleteItem) (pivot c : Nat) : Nat → Nat → Nat
  | 0, b => b
  | fuel + 1, b => if b < c ∧ ¬ lessIdx l pivot b then scanBGo l pivot c fuel (b + 1) else b

/-- doPivot_func scan: for ; b < c and data.Less(pivot, c-1); c--. -/
def scanC (l : List AutocompleteItem) (pivot b : Nat) : Nat → Nat
  | 0 => 0
  | c + 1 => if b < c + 1 ∧ lessIdx l pivot c then scanC l pivot b c else c + 1

/-- doPivot_func middle partition loop; fuel dominates the iteration
count (each iteration shrinks c - b by two). Returns (data, b, c). -/
def partLoop (pivot : Nat) : Nat → List AutocompleteItem → Nat → Nat →
    List AutocompleteItem × Nat × Nat
  | 0, l, b, c => (l, b, c)
  | fuel + 1, l, b, c =>
    let b1 := scanBGo l pivot c (c - b) b
    let c1 := scanC l pivot b1 c
    if b1 ≥ c1 then (l, b1, c1)
    else partLoop pivot fuel (lswap l b1 (c1 - 1)) (b1 + 1) (c1 - 1)

/-- doPivot_func protect scan: for ; a < b and not Less(b-1, pivot); b--. -/
def protScanB (l : List AutocompleteItem) (pivot a : Nat) : Nat → Nat
  | 0 => 0
  | b + 1 => if a < b + 1 ∧ ¬ lessIdx l b pivot then protScanB l pivot a b else b + 1

/-- doPivot_func protect scan: for ; a < b and data.Less(a, pivot); a++;
fuel dominates b - a. -/
def protScanAGo (l : List AutocompleteItem) (pivot b : Nat) : Nat → Nat → Nat
  | 0, a => a
  | fuel + 1, a => if a < b ∧ lessIdx l a pivot then protScanAGo l pivot b fuel (a + 1) else a

/-- doPivot_func protect loop; fuel as in partLoop. Returns (data, a, b). -/
def protectLoop (pivot : Nat) : Nat → List AutocompleteItem → Nat → Nat →
    List AutocompleteItem × Nat × Nat
  | 0, l, a, b => (l, a, b)
  | fuel + 1, l, a, b =>
    let b1 := protScanB l pivot a b
    let a1 := protScanAGo l pivot b1 (b1 - a) a
    if a1 ≥ b1 then (l, a1, b1)
    else protectLoop pivot fuel (lswap l a1 (b1 - 1)) (a1 + 1) (b1 - 1)

/-- The median selection at the head of doPivot_func: the ninther for
ranges longer than 40, then medianOfThree(lo, m, hi-1). -/
def pivotMedians (l : List AutocompleteItem) (lo hi m : Nat) : List AutocompleteItem :=
  let l1 :=
    if hi - lo > 40 then
      let s := (hi - lo) / 8
      medianOfThree
        (medianOfThree (medianOfThree l lo (lo + s) (lo + 2 * s)) m (m - s) (m + s))
        (hi - 1) (hi - 1 - s) (hi - 1 - 2 * s)
    else l
  medianOfThree l1 lo m (hi - 1)

/-- The duplicate-shifting block of doPivot_func (the three dups tests);
returns (data, b, c, protect). -/
def pivotDupShift (l : List AutocompleteItem) (pivot m hi b c : Nat) :
    List AutocompleteItem × Nat × Nat × Bool :=
  let s1 := if ¬ lessIdx l pivot (hi - 1) then (lswap l c (hi - 1), c + 1, 1)
    else (l, c, 0)
  let l4 := s1.1
  let c2 := s1.2.1
  let d1 : Nat := s1.2.2
  let s2 := if ¬ lessIdx l4 (b - 1) pivot then (b - 1, d1 + 1) else (b, d1)
  let b2 := s2.1
  let d2 := s2.2
  let s3 := if ¬ lessIdx l4 m pivot then (lswap l4 (b2 - 1) m, b2 - 1, d2 + 1)
    else (l4, b2, d2)
  (s3.1, s3.2.1, c2, decide (s3.2.2 > 1))

/-- doPivot_func(data, lo, hi) of Go 1.18, returning (data, midlo, midhi). -/
def doPivot (l : List AutocompleteItem) (lo hi : Nat) :
    List AutocompleteItem × Nat × Nat :=
  let m := (lo + hi) / 2
  let l2 := pivotMedians l lo hi m
  let pivot := lo
  let a := scanAGo l2 pivot (hi - 1) (hi - 1 - (lo + 1)) (lo + 1)
  let r := partLoop pivot (hi - 1 - a + 1) l2 a (hi - 1)
  let protect0 := decide (hi - r.2.2 < 5)
  let r2 :=
    if ¬ protect0 ∧ hi - r.2.2 < (hi - lo) / 4 then
      pivotDupShift r.1 pivot m hi r.2.1 r.2.2
    else (r.1, r.2.1, r.2.2, protect0)
  let r3 := if r2.2.2.2 then protectLoop pivot (r2.2.1 - a + 1) r2.1 a r2.2.1
    else (r2.1, a, r2.2.1)
  (lswap r3.1 pivot (r3.2.2 - 1), r3.2.2 - 1, r2.2.2.1)

/-- quickSort_func(data, a, b, maxDepth) of Go 1.18.  The loop "process
the larger side in place" is unrolled into two recursive calls in the
same order as the Go code executes them; fuel bounds the recursion
nesting, which the caller makes deep enough (the nesting is bounded by
maxDepth + 1 because the depth counter decreases on every nested call). -/
def quickSortFunc : Nat → List AutocompleteItem → Nat → Nat → Nat → List AutocompleteItem
  | 0, l, _, _, _ => l
  | fuel + 1, l, a, b, depth =>
    if b - a > 12 then
      if depth = 0 then heapSortFunc l a b
      else
        let d := depth - 1
        let r := doPivot l a b
        let l1 := r.1
        let mlo := r.2.1
        let mhi := r.2.2
        if mlo - a < b - mhi then
          quickSortFunc fuel (quickSortFunc fuel l1 a mlo d) mhi b d
        else
          quickSortFunc fuel (quickSortFunc fuel l1 mhi b d) a mlo d
    else if b - a > 1 then insertionSortFunc (shellPass l a b) a b
    else l

/-- Bit length, fuel-driven: maxDepth(n) of Go 1.18 sort.Slice is twice
this value. -/
def bitLenGo : Nat → Nat → Nat
  | 0, _ => 0
  | fuel + 1, n => if n = 0 then 0 else bitLenGo fuel (n / 2) + 1

/-- maxDepth(n) of Go 1.18 sort.Slice: twice the bit length of n. -/
def maxDepthGo (n : Nat) : Nat := 2 * bitLenGo n n

/-- sort.Slice(items, func(i, j int) bool { return items[i].Priority >
items[j].Priority }) as called by SetAutocompleteList (src/inputbar.go
lines 142-144), with the Go 1.18 algorithm.  The fuel passed to
quickSortFunc exceeds maxDepth + 1, so it is never exhausted. -/
def sortSliceByPriority (l : List AutocompleteItem) : List AutocompleteItem :=
  quickSortFunc (maxDepthGo l.length + l.length + 2) l 0 l.length (maxDepthGo l.length)

/-! ## Popup geometry, from InputBar.Draw (src/inputbar.go lines 183-209) -/

/-- The width computation of Draw (src/inputbar.go lines 185-195): a
running fold over the item texts; an item whose rendered width exceeds
the current (already padded) running value replaces it by that width
plus 2.  The parameter twidth stands for TaggedStringWidth, the
display-column measurement of styled text; it lives outside
src/inputbar.go and is passed as a function, to be instantiated at a
concrete measurement.  On plain ASCII text without styling markup the
display-column width is the character count. -/
def listWidthCalc (twidth : String → Nat) (items : List (String × String)) : Nat :=
  items.foldl
    (fun lw t => if twidth (t.1 ++ t.2) > lw then twidth (t.1 ++ t.2) + 2 else lw) 0

/-- The height computation of Draw (src/inputbar.go line 196):
listHeight = itemCount + 2. -/
def listHeightCalc (n : Nat) : Nat := n + 2

/-- The vertical placement of the popup in Draw (src/inputbar.go lines
199-206), before the final height truncation: ly starts at y + 1 and
flips above when ly + listHeight >= sheight and ly - 2 > listHeight - ly,
clamped at 0.  All quantities are Go ints, hence Int here. -/
def popupLy (y listHeight sheight : Int) : Int :=
  let ly := y + 1
  if ly + listHeight ≥ sheight ∧ ly - 2 > listHeight - ly then
    let ly2 := y - listHeight
    if ly2 < 0 then 0 else ly2
  else ly

/-- Modelled from the spec (section 4.2 flip rule), for comparison with
popupLy: flip when the bottom edge would exceed screenHeight AND the
space above the anchor (anchor.y - 2) is larger than the space below
(screenHeight - anchor.y); placed above at anchor.y - height, clamped
to 0. -/
def specFlipLy (y listHeight sheight : Int) : Int :=
  let ly := y + 1
  if ly + listHeight ≥ sheight ∧ y - 2 > sheight - y then
    let ly2 := y - listHeight
    if ly2 < 0 then 0 else ly2
  else ly

/-- The final height truncation of Draw (src/inputbar.go lines 207-209):
if ly + listHeight >= sheight then listHeight = sheight - ly. -/
def popupHeightFinal (ly listHeight sheight : Int) : Int :=
  if ly + listHeight ≥ sheight then sheight - ly else listHeight

/-! ## The widget state machine, from InputBar and its InputHandler -/

/-- Modelled from the spec: the SelectableList popup collaborator
(section 4.4), reduced to the state the InputBar code observes: the
item texts (primary, secondary) in order, and the index of the
currently highlighted item.  clear() resets both. -/
structure ListModel where
  items : List (String × String)
  currentItem : Nat
  deriving DecidableEq, Repr

/-- The InputBar state observed by the embedded operations:
the committed text held by the TextArea collaborator, the nilable popup
List (None models a nil Go pointer), and the three callback slots the
handler consults.  The callbacks are modelled as pure functions: the
provider returns the candidate batch for (text, cursorRow); the
autocompleted callback returns its close-now decision; for the changed
callback only presence matters, its invocations are counted by the step
function. -/
structure InputBar where
  text : String
  autocompleteList : Option ListModel
  autocompleteFunc : Option (String → Nat → List AutocompleteItem)
  autocompleted : Option (String → Nat → Bool)
  changedPresent : Bool

/-- SetAutocompleteList (src/inputbar.go lines 138-150): Clear the
popup list, sort the caller's slice in place with sort.Slice by
descending Priority, and AddItem each entry.  The result's second
component is the caller's slice as the call leaves it (sort.Slice
mutates it in place).  Calling Clear on a nil list dereferences a nil
pointer: None. -/
def SetAutocompleteList (e : InputBar) (items : List AutocompleteItem) :
    Option (InputBar × List AutocompleteItem) :=
  match e.autocompleteList with
  | none => none
  | some _ =>
    let sorted := sortSliceByPriority items
    let lm : ListModel := ⟨sorted.map (fun it => (it.Value, it.Description)), 0⟩
    some ({ e with autocompleteList := some lm }, sorted)

/-- Autocomplete (src/inputbar.go lines 92-114).  Returns the new state
and whether the external provider was invoked; None models the nil
dereference when Clear is called on a nil list.  The cursor row passed
to the provider is 0: the field is a single line (the TextArea
collaborator is modelled from the spec, which keeps cursor math outside
this core). -/
def Autocomplete (e : InputBar) : Option (InputBar × Bool) :=
  match e.autocompleteFunc with
  | none => some (e, false)
  | some f =>
    match e.autocompleteList with
    | none => none
    | some _ =>
      let e1 := { e with autocompleteList := some ⟨[], 0⟩ }
      if e1.text = "" then some (e1, false)
      else
        let items := f e1.text 0
        if items = [] then some (e1, true)
        else
          match SetAutocompleteList e1 items with
          | none => none
          | some (e2, _) => some (e2, true)

/-- IsAutocompleteVisible (src/inputbar.go lines 121-123):
autocompleteList.GetItemCount() > 0.  On a nil list the method call
dereferences nil: None. -/
def IsAutocompleteVisible (e : InputBar) : Option Bool :=
  match e.autocompleteList with
  | none => none
  | some l => some (decide (l.items.length > 0))

/-- Whether the popup is drawn: Draw (src/inputbar.go line 183) skips a
nil list, and a present list with no items paints no candidate rows.
This is the derived popupOpen flag of the spec's WidgetState. -/
def popupOpen (e : InputBar) : Bool :=
  match e.autocompleteList with
  | none => false
  | some l => decide (l.items.length > 0)

/-- The key events the handler distinguishes (src/inputbar.go lines
238-267); runes cover printable input, other covers every remaining
key. -/
inductive Key where
  | rune (c : Char)
  | backspace
  | tab
  | down
  | up
  | enter
  | escape
  | other
  deriving DecidableEq

/-- The navigation keys the open popup intercepts (src/inputbar.go line
242): Tab, Down, Up, Backspace. -/
def isNavKey : Key → Bool
  | .tab | .down | .up | .backspace => true
  | _ => false

/-- Modelled from the spec: the TextEditor collaborator's key handling
(sections 4.3 and 4.4): printable characters are appended at the cursor
(end of the single-line field), delete keys remove text, and
Enter/Escape/navigation keys do not change the buffer text. -/
def textAreaHandle (t : String) : Key → String
  | .rune c => t.push c
  | .backspace => t.dropRight 1
  | _ => t

/-- Modelled from the spec: the popup List collaborator's navigation
(section 4.3): Tab and Down move the highlight to the next item, Up and
Backspace to the previous one, wrapping around; on n items the result
stays in range. -/
def navIndex (ev : Key) (n i : Nat) : Nat :=
  match ev with
  | .tab | .down => (i + 1) % n
  | .up | .backspace => (i + n - 1) % n
  | _ => i

/-- The deferred block of InputHandler (src/inputbar.go lines 223-233):
compare the text with the recorded currentText; on a difference run
Autocomplete (skipAutocomplete is declared but never set in this code)
and then fire the changed callback once.  Returns the state, the number
of changed-callback invocations and the number of provider invocations;
None models a panic inside Autocomplete. -/
def finishInvoke (e1 : InputBar) (cur : String) : Option (InputBar × Nat × Nat) :=
  if e1.text = cur then some (e1, 0, 0)
  else
    match Autocomplete e1 with
    | none => none
    | some (e2, pcalled) =>
      some (e2, if e1.changedPresent then 1 else 0, if pcalled then 1 else 0)

/-- One invocation of the InputHandler closure (src/inputbar.go lines
217-268) on one key event.  The strip parameter stands for the
stripTags utility (outside src/inputbar.go; the spec treats styling
markup handling as an external text collaborator).  Results: new state,
changed-callback invocation count, provider invocation count; None
models a panic (nil dereference or index out of range). -/
def handleInput (strip : String → String) (e : InputBar) (ev : Key) :
    Option (InputBar × Nat × Nat) :=
  let cur := e.text
  match e.autocompleteList with
  | some l =>
    match ev with
    | .escape => finishInvoke { e with autocompleteList := none } cur
    | .tab | .down | .up | .backspace =>
      if l.items.length = 0 then finishInvoke e cur
      else
        let j := navIndex ev l.items.length l.currentItem
        if j = l.currentItem then
          finishInvoke { e with autocompleteList := some { l with currentItem := j } } cur
        else
          let tx := strip (l.items.getD j ("", "")).1
          match e.autocompleted with
          | some f =>
            if f tx j then finishInvoke { e with autocompleteList := none } e.text
            else
              finishInvoke { e with autocompleteList := some { l with currentItem := j } } cur
          | none =>
            finishInvoke
              { e with text := tx, autocompleteList := some { l with currentItem := j } }
              (strip tx)
    | .enter =>
      if l.currentItem < l.items.length then
        let main := (l.items.getD l.currentItem ("", "")).1
        let e1 := { e with text := main, autocompleteList := some ⟨[], 0⟩ }
        finishInvoke { e1 with text := textAreaHandle e1.text .enter } cur
      else none
    | _ => finishInvoke { e with text := textAreaHandle e.text ev } cur
  | none => finishInvoke { e with text := textAreaHandle e.text ev } cur

/-! ## Auxiliary definitions used by the statements -/

/-- Display-column width of plain ASCII text without styling markup:
the character count.  Used to instantiate the TaggedStringWidth
parameter at concrete inputs where the two agree. -/
def asciiWidth (s : String) : Nat := s.length

/-- The maximum rendered width over the item texts (the quantity the
spec says the popup width is built from). -/
def maxItemWidth (twidth : String → Nat) (items : List (String × String)) : Nat :=
  items.foldl (fun m t => max m (twidth (t.1 ++ t.2))) 0

/-- Priority-descending order between adjacent candidates. -/
def gePrio (x y : AutocompleteItem) : Prop := y.Priority ≤ x.Priority

/-- The first k positions of the slice are adjacently sorted by
descending Priority. -/
def SortedPfx (l : List AutocompleteItem) (k : Nat) : Prop :=
  ∀ m, m + 1 < k → (geti l (m + 1)).Priority ≤ (geti l m).Priority

/-! ### Definitions for the full-correctness proof of the sort -/

/-- The two lists have the same length and agree (as geti) at every
position outside [a, b). -/
def SameOutside (a b : Nat) (l l2 : List AutocompleteItem) : Prop :=
  l2.length = l.length ∧ ∀ k, k < a ∨ b ≤ k → geti l2 k = geti l k

/-- The segment [a, b) of the slice is sorted by descending Priority
(pointwise form). -/
def SegSorted (l : List AutocompleteItem) (a b : Nat) : Prop :=
  ∀ i j, a ≤ i → i ≤ j → j < b → (geti l j).Priority ≤ (geti l i).Priority

/-- Positions [a, k) are adjacently sorted by descending Priority. -/
def SortedPfxFrom (l : List AutocompleteItem) (a k : Nat) : Prop :=
  ∀ m, a ≤ m → m + 1 < k → (geti l (m + 1)).Priority ≤ (geti l m).Priority

/-- The min-priority-heap property of siftDown_func at node j of the
implicit tree over positions first+0 .. first+hi-1: the parent's
Priority does not exceed either child's. -/
def HeapAt (l : List AutocompleteItem) (first hi j : Nat) : Prop :=
  (2 * j + 1 < hi →
    (geti l (first + j)).Priority ≤ (geti l (first + (2 * j + 1))).Priority) ∧
  (2 * j + 2 < hi →
    (geti l (first + j)).Priority ≤ (geti l (first + (2 * j + 2))).Priority)

/-- stripTags on text that contains no styling markup: the identity.
Concrete scenarios use tag-free candidate values, for which this is the
behavior of the real utility. -/
def stripNoTags : String → String := fun s => s

/-- Candidate batch of the spec's stability example:
[(v1,2),(v2,5),(v3,5)]. -/
def exStable : List AutocompleteItem :=
  [⟨"v1", "", 2⟩, ⟨"v2", "", 5⟩, ⟨"v3", "", 5⟩]

/-- Seven candidates: one of priority 1 followed by six of priority 5.
Go 1.18 sort.Slice runs its gap-6 shell pass on this input and moves the
last tied candidate in front of the other five. -/
def exSeven : List AutocompleteItem :=
  [⟨"w", "", 1⟩, ⟨"v1", "", 5⟩, ⟨"v2", "", 5⟩, ⟨"v3", "", 5⟩, ⟨"v4", "", 5⟩,
   ⟨"v5", "", 5⟩, ⟨"v6", "", 5⟩]

/-- A state with text "ab", an open two-candidate popup, no
autocompleted callback and a registered changed callback. -/
def barNav : InputBar :=
  ⟨"ab", some ⟨[("abc", ""), ("abd", "")], 0⟩, none, none, true⟩

/-- A provider that always returns one candidate, regardless of text. -/
def provConst : String → Nat → List AutocompleteItem := fun _ _ => [⟨"x", "", 0⟩]

/-- A state with text "ab", an open one-candidate popup, the constant
provider and a registered changed callback. -/
def barEnter : InputBar :=
  ⟨"ab", some ⟨[("abc", "")], 0⟩, some provConst, none, true⟩

/-- A state with text "ab", an open one-candidate popup and the constant
provider; no changed callback. -/
def barEsc : InputBar :=
  ⟨"ab", some ⟨[("abc", "")], 0⟩, some provConst, none, false⟩

/-- A provider returning no candidates for any input. -/
def provEmpty : String → Nat → List AutocompleteItem := fun _ _ => []

/-- A state with text "xy", a present (currently empty) popup list and
the empty provider: the spec's empty-refresh scenario. -/
def barEmptyRefresh : InputBar :=
  ⟨"xy", some ⟨[], 0⟩, some provEmpty, none, false⟩

/-- A bare state used by witnesses: no popup candidates, no provider. -/
def barPlain : InputBar :=
  ⟨"ab", some ⟨[], 0⟩, none, none, true⟩

/-- Item texts of the width counterexample: rendered widths 5 and 6. -/
def exWidths : List (String × String) :=
  [("abcde", ""), ("abcdef", "")]

/-- The popup list state after SetAutocompleteList ranks and re-adds a
candidate batch. -/
def rankedListModel (items : List AutocompleteItem) : ListModel :=
  ⟨(sortSliceByPriority items).map (fun it => (it.Value, it.Description)), 0⟩

/-- A state typing in the field: text "a", popup list present but
empty, no provider, changed callback registered. -/
def barTyping : InputBar :=
  ⟨"a", some ⟨[], 0⟩, none, none, true⟩

/-- A state with an open two-candidate popup and a provider; no
autocompleted callback, no changed callback. -/
def barNav2 : InputBar :=
  ⟨"x", some ⟨[("xy", ""), ("xz", "")], 0⟩, some provConst, none, false⟩

/-- A state with an open one-candidate popup and no provider; changed
callback registered. -/
def barEnter2 : InputBar :=
  ⟨"pq", some ⟨[("pqr", "")], 0⟩, none, none, true⟩

/-- A state with an open one-candidate popup; no provider, changed
callback registered. -/
def barEscW : InputBar :=
  ⟨"cd", some ⟨[("cde", "")], 0⟩, none, none, true⟩

/-- A state whose popup list is present and empty; no callbacks. -/
def barC10 : InputBar :=
  ⟨"q", some ⟨[], 0⟩, none, none, false⟩

/-- Three candidates with pairwise distinct priorities 1, 3, 2. -/
def exC10 : List AutocompleteItem :=
  [⟨"a", "", 1⟩, ⟨"b", "", 3⟩, ⟨"c", "", 2⟩]

/-! ## Permutation facts: every operation of the sort only swaps entries -/

theorem getD_cons_set_perm (x : AutocompleteItem) :
    ∀ (t : List AutocompleteItem) (k : Nat), k < t.length →
      (geti t k :: t.set k x).Perm (x :: t)
  | [], k, h => absurd h (by simp)
  | y :: s, 0, _ => by
    simpa [geti] using List.Perm.swap x y s
  | y :: s, k + 1, h => by
    have hk : k < s.length := by simpa using h
    have ih := getD_cons_set_perm x s k hk
    have h1 : (geti s k :: y :: s.set k x).Perm (y :: geti s k :: s.set k x) :=
      List.Perm.swap y (geti s k) _
    have h2 : (y :: geti s k :: s.set k x).Perm (y :: x :: s) := ih.cons y
    have h3 : (y :: x :: s).Perm (x :: y :: s) := List.Perm.swap x y s
    simpa [geti] using (h1.trans h2).trans h3

theorem set_set_swap_perm :
    ∀ (l : List AutocompleteItem) (i j : Nat), i < l.length → j < l.length →
      ((l.set i (geti l j)).set j (geti l i)).Perm l
  | [], i, _, hi, _ => absurd hi (by simp)
  | x :: t, 0, 0, _, _ => by
    simp [geti]
  | x :: t, 0, k + 1, _, hj => by
    have hk : k < t.length := by simpa using hj
    simpa [geti] using getD_cons_set_perm x t k hk
  | x :: t, m + 1, 0, hi, _ => by
    have hm : m < t.length := by simpa using hi
    simpa [geti] using getD_cons_set_perm x t m hm
  | x :: t, m + 1, k + 1, hi, hj => by
    have hm : m < t.length := by simpa using hi
    have hk : k < t.length := by simpa using hj
    have ih := set_set_swap_perm t m k hm hk
    simpa [geti] using ih.cons x

theorem lswap_perm (l : List AutocompleteItem) (i j : Nat) : (lswap l i j).Perm l := by
  unfold lswap
  split
  · next h => exact set_set_swap_perm l i j h.1 h.2
  · exact .refl l

theorem lswap_length (l : List AutocompleteItem) (i j : Nat) :
    (lswap l i j).length = l.length :=
  (lswap_perm l i j).length_eq

theorem insStep_perm (a : Nat) : ∀ (j : Nat) (l : List AutocompleteItem),
    (insStep l a j).Perm l
  | 0, l => .refl l
  | j + 1, l => by
    rw [insStep]
    split
    · exact (insStep_perm a j _).trans (lswap_perm l (j + 1) j)
    · exact .refl l

theorem insSortGo_perm (a b : Nat) : ∀ (fuel : Nat) (l : List AutocompleteItem) (i : Nat),
    (insSortGo a b fuel l i).Perm l
  | 0, l, _ => .refl l
  | fuel + 1, l, i => by
    rw [insSortGo]
    split
    · exact (insSortGo_perm a b fuel _ (i + 1)).trans (insStep_perm a i l)
    · exact .refl l

theorem insertionSortFunc_perm (l : List AutocompleteItem) (a b : Nat) :
    (insertionSortFunc l a b).Perm l :=
  insSortGo_perm a b (b - a) l (a + 1)

theorem shellGo_perm (b : Nat) : ∀ (fuel : Nat) (l : List AutocompleteItem) (i : Nat),
    (shellGo b fuel l i).Perm l
  | 0, l, _ => .refl l
  | fuel + 1, l, i => by
    rw [shellGo]
    repeat' split
    all_goals
      first
        | exact .refl l
        | exact (shellGo_perm b fuel _ (i + 1)).trans (lswap_perm l i (i - 6))
        | exact shellGo_perm b fuel l (i + 1)

theorem shellPass_perm (l : List AutocompleteItem) (a b : Nat) :
    (shellPass l a b).Perm l :=
  shellGo_perm b (b - a) l (a + 6)

theorem siftDownGo_perm (hi first : Nat) : ∀ (fuel : Nat) (l : List AutocompleteItem)
    (root : Nat), (siftDownGo hi first fuel l root).Perm l
  | 0, l, _ => .refl l
  | fuel + 1, l, root => by
    rw [siftDownGo]
    dsimp only
    repeat' split
    all_goals
      first
        | exact .refl l
        | exact (siftDownGo_perm hi first fuel _ _).trans (lswap_perm l _ _)

theorem siftDownFrom_perm (l : List AutocompleteItem) (lo hi first : Nat) :
    (siftDownFrom l lo hi first).Perm l :=
  siftDownGo_perm hi first hi l lo

theorem heapify_perm (hi first : Nat) : ∀ (n : Nat) (l : List AutocompleteItem),
    (heapify l hi first n).Perm l
  | 0, l => .refl l
  | n + 1, l => (heapify_perm hi first n _).trans (siftDownFrom_perm l n hi first)

theorem heapExtract_perm (first : Nat) : ∀ (n : Nat) (l : List AutocompleteItem),
    (heapExtract l first n).Perm l
  | 0, l => .refl l
  | n + 1, l =>
    (heapExtract_perm first n _).trans
      ((siftDownFrom_perm _ 0 n first).trans (lswap_perm l first (first + n)))

theorem heapSortFunc_perm (l : List AutocompleteItem) (a b : Nat) :
    (heapSortFunc l a b).Perm l :=
  (heapExtract_perm a (b - a) _).trans (heapify_perm (b - a) a ((b - a - 1) / 2 + 1) l)

theorem medianOfThree_perm (l : List AutocompleteItem) (m1 m0 m2 : Nat) :
    (medianOfThree l m1 m0 m2).Perm l := by
  unfold medianOfThree
  dsimp only
  repeat' split
  all_goals
    first
      | exact .refl l
      | exact lswap_perm l _ _
      | exact (lswap_perm _ _ _).trans (lswap_perm l _ _)
      | exact (lswap_perm _ _ _).trans ((lswap_perm _ _ _).trans (lswap_perm l _ _))

theorem pivotMedians_perm (l : List AutocompleteItem) (lo hi m : Nat) :
    (pivotMedians l lo hi m).Perm l := by
  unfold pivotMedians
  dsimp only
  refine (medianOfThree_perm _ lo m (hi - 1)).trans ?_
  split
  · exact (medianOfThree_perm _ _ _ _).trans
      ((medianOfThree_perm _ _ _ _).trans (medianOfThree_perm l _ _ _))
  · exact .refl l

theorem partLoop_perm (pivot : Nat) : ∀ (fuel : Nat) (l : List AutocompleteItem)
    (b c : Nat), (partLoop pivot fuel l b c).1.Perm l
  | 0, l, _, _ => .refl l
  | fuel + 1, l, b, c => by
    rw [partLoop]
    split
    · exact .refl l
    · exact (partLoop_perm pivot fuel _ _ _).trans (lswap_perm l _ _)

theorem protectLoop_perm (pivot : Nat) : ∀ (fuel : Nat) (l : List AutocompleteItem)
    (a b : Nat), (protectLoop pivot fuel l a b).1.Perm l
  | 0, l, _, _ => .refl l
  | fuel + 1, l, a, b => by
    rw [protectLoop]
    split
    · exact .refl l
    · exact (protectLoop_perm pivot fuel _ _ _).trans (lswap_perm l _ _)

theorem pivotDupShift_perm (l : List AutocompleteItem) (pivot m hi b c : Nat) :
    (pivotDupShift l pivot m hi b c).1.Perm l := by
  unfold pivotDupShift
  dsimp only
  repeat' split
  all_goals
    first
      | exact .refl l
      | exact lswap_perm l _ _
      | exact (lswap_perm _ _ _).trans (lswap_perm l _ _)

theorem doPivot_perm (l : List AutocompleteItem) (lo hi : Nat) :
    (doPivot l lo hi).1.Perm l := by
  unfold doPivot
  dsimp only
  set l2 := pivotMedians l lo hi ((lo + hi) / 2) with hl2
  have h2 : l2.Perm l := pivotMedians_perm l lo hi ((lo + hi) / 2)
  set a0 := scanAGo l2 lo (hi - 1) (hi - 1 - (lo + 1)) (lo + 1) with ha0
  set r := partLoop lo (hi - 1 - a0 + 1) l2 a0 (hi - 1) with hr
  have h3 : r.1.Perm l := (partLoop_perm lo _ l2 a0 (hi - 1)).trans h2
  have hstep : ∀ (r2 : List AutocompleteItem × Nat × Nat × Bool), r2.1.Perm l →
      (lswap (if r2.2.2.2 = true then protectLoop lo (r2.2.1 - a0 + 1) r2.1 a0 r2.2.1
          else (r2.1, a0, r2.2.1)).1 lo
        ((if r2.2.2.2 = true then protectLoop lo (r2.2.1 - a0 + 1) r2.1 a0 r2.2.1
          else (r2.1, a0, r2.2.1)).2.2 - 1)).Perm l := by
    intro r2 h
    refine (lswap_perm _ _ _).trans ?_
    split
    · exact (protectLoop_perm _ _ _ _ _).trans h
    · exact h
  refine hstep _ ?_
  split
  · exact (pivotDupShift_perm _ _ _ _ _ _).trans h3
  · exact h3

theorem quickSortFunc_perm : ∀ (fuel : Nat) (l : List AutocompleteItem) (a b depth : Nat),
    (quickSortFunc fuel l a b depth).Perm l
  | 0, l, _, _, _ => .refl l
  | fuel + 1, l, a, b, depth => by
    rw [quickSortFunc]
    dsimp only
    repeat' split
    all_goals
      first
        | exact .refl l
        | exact heapSortFunc_perm l a b
        | exact (insertionSortFunc_perm _ a b).trans (shellPass_perm l a b)
        | exact (quickSortFunc_perm fuel _ _ _ _).trans
            ((quickSortFunc_perm fuel _ _ _ _).trans (doPivot_perm l a b))

theorem sortSliceByPriority_perm (l : List AutocompleteItem) :
    (sortSliceByPriority l).Perm l :=
  quickSortFunc_perm _ l 0 l.length (maxDepthGo l.length)

theorem sortSliceByPriority_length (l : List AutocompleteItem) :
    (sortSliceByPriority l).length = l.length :=
  (sortSliceByPriority_perm l).length_eq

/-! ## Sortedness of the small-range path (shell pass + insertion sort) -/

theorem geti_eq_getElem (l : List AutocompleteItem) (i : Nat) (h : i < l.length) :
    geti l i = l[i] := by
  simp [geti, List.getD_eq_getElem?_getD, List.getElem?_eq_getElem h]

theorem geti_lswap_fst (l : List AutocompleteItem) (i j : Nat)
    (hi : i < l.length) (hj : j < l.length) : geti (lswap l i j) j = geti l i := by
  unfold lswap
  rw [if_pos ⟨hi, hj⟩]
  simp [geti, List.getD_eq_getElem?_getD, List.getElem?_set, hj, List.length_set,
    hi, List.getElem?_eq_getElem]

theorem geti_lswap_snd (l : List AutocompleteItem) (i j : Nat)
    (hi : i < l.length) (hj : j < l.length) (hne : j ≠ i) :
    geti (lswap l i j) i = geti l j := by
  unfold lswap
  rw [if_pos ⟨hi, hj⟩]
  simp [geti, List.getD_eq_getElem?_getD, List.getElem?_set, hi, List.length_set,
    hj, List.getElem?_eq_getElem, hne]

theorem geti_lswap_other (l : List AutocompleteItem) (i j m : Nat)
    (hmi : m ≠ i) (hmj : m ≠ j) : geti (lswap l i j) m = geti l m := by
  unfold lswap
  split
  · simp [geti, List.getD_eq_getElem?_getD, List.getElem?_set, Ne.symm hmj, Ne.symm hmi]
  · rfl

theorem insStep_sorted :
    ∀ (j : Nat) (l : List AutocompleteItem) (i : Nat), j ≤ i → i < l.length →
      (∀ m, m + 1 ≤ i → m + 1 ≠ j →
        (geti l (m + 1)).Priority ≤ (geti l m).Priority) →
      (∀ m, m + 1 = j → j + 1 ≤ i →
        (geti l (j + 1)).Priority ≤ (geti l m).Priority) →
      SortedPfx (insStep l 0 j) (i + 1)
  | 0, l, i, _, _, hA, _ => by
    intro m hm
    exact hA m (by omega) (by omega)
  | k + 1, l, i, hji, hil, hA, hB => by
    rw [insStep]
    split
    · next hcond =>
      have hkl : k < l.length := by omega
      have hk1l : k + 1 < l.length := by omega
      have hless : (geti l k).Priority < (geti l (k + 1)).Priority := by
        have := hcond.2
        simpa [lessIdx] using this
      have e1 : geti (lswap l (k + 1) k) k = geti l (k + 1) :=
        geti_lswap_fst l (k + 1) k hk1l hkl
      have e2 : geti (lswap l (k + 1) k) (k + 1) = geti l k :=
        geti_lswap_snd l (k + 1) k hk1l hkl (by omega)
      have e3 : ∀ m, m ≠ k → m ≠ k + 1 → geti (lswap l (k + 1) k) m = geti l m :=
        fun m h1 h2 => geti_lswap_other l (k + 1) k m h2 h1
      apply insStep_sorted k (lswap l (k + 1) k) i (by omega)
        (by rwa [lswap_length])
      · intro m hm hne
        by_cases hmk : m = k
        · subst hmk
          rw [e1, e2]
          exact le_of_lt hless
        · by_cases hmk1 : m = k + 1
          · subst hmk1
            rw [e2, e3 (k + 2) (by omega) (by omega)]
            exact hB k rfl (by omega)
          · rw [e3 m hmk hmk1, e3 (m + 1) hne (by omega)]
            exact hA m hm (by omega)
      · intro m hm hki
        rw [e2, e3 m (by omega) (by omega)]
        have := hA m (by omega) (by omega)
        rwa [show m + 1 = k from hm] at this
    · next hcond =>
      have hstop : ¬ ((geti l k).Priority < (geti l (k + 1)).Priority) := by
        intro hlt
        exact hcond ⟨by omega, by simpa [lessIdx] using hlt⟩
      intro m hm
      by_cases hmk : m + 1 = k + 1
      · have hmk2 : m = k := by omega
        subst hmk2
        exact le_of_not_lt hstop
      · exact hA m (by omega) hmk

theorem insSortGo_sorted (b : Nat) :
    ∀ (fuel : Nat) (l : List AutocompleteItem) (i : Nat), b = l.length → 1 ≤ i →
      b ≤ i + fuel → SortedPfx l i → SortedPfx (insSortGo 0 b fuel l i) b
  | 0, l, i, _, _, hfu, hs => by
    intro m hm
    exact hs m (by omega)
  | fuel + 1, l, i, hb, hi1, hfu, hs => by
    rw [insSortGo]
    split
    · next hlt =>
      apply insSortGo_sorted b fuel _ (i + 1) ?_ (by omega) (by omega) ?_
      · rw [hb]
        exact ((insStep_perm 0 i l).length_eq).symm
      · apply insStep_sorted i l i le_rfl (by omega)
        · intro m hm hne
          exact hs m (by omega)
        · intro m _ hcontra
          exact absurd hcontra (by omega)
    · next hge =>
      intro m hm
      exact hs m (by omega)

theorem insertionSortFunc_sorted (l : List AutocompleteItem) :
    SortedPfx (insertionSortFunc l 0 l.length) l.length := by
  unfold insertionSortFunc
  exact insSortGo_sorted l.length (l.length - 0) l 1 rfl le_rfl (by omega)
    (fun m hm => absurd hm (by omega))

theorem sortedPfx_le (l : List AutocompleteItem) (h : SortedPfx l l.length) :
    ∀ (d i j : Nat), j - i ≤ d → i ≤ j → j < l.length →
      (geti l j).Priority ≤ (geti l i).Priority
  | 0, i, j, hd, hij, _ => by
    have : i = j := by omega
    subst this
    exact le_refl _
  | d + 1, i, j, hd, hij, hj => by
    by_cases heq : i = j
    · subst heq
      exact le_refl _
    · have h1 : (geti l j).Priority ≤ (geti l (j - 1)).Priority := by
        have := h (j - 1) (by omega)
        rwa [show j - 1 + 1 = j from by omega] at this
      have h2 : (geti l (j - 1)).Priority ≤ (geti l i).Priority :=
        sortedPfx_le l h d i (j - 1) (by omega) (by omega) (by omega)
      exact le_trans h1 h2

theorem pairwise_of_sortedPfx (l : List AutocompleteItem)
    (h : SortedPfx l l.length) : l.Pairwise gePrio := by
  rw [List.pairwise_iff_getElem]
  intro i j hi hj hij
  have := sortedPfx_le l h j i j (by omega) (by omega) hj
  rwa [geti_eq_getElem l i hi, geti_eq_getElem l j hj] at this

theorem sortSliceByPriority_sorted_small (l : List AutocompleteItem)
    (h : l.length ≤ 12) : (sortSliceByPriority l).Pairwise gePrio := by
  unfold sortSliceByPriority
  rw [show maxDepthGo l.length + l.length + 2 = (maxDepthGo l.length + l.length + 1) + 1
    from rfl]
  rw [quickSortFunc]
  rw [if_neg (by omega)]
  by_cases h1 : l.length - 0 > 1
  · rw [if_pos h1]
    have hlen : (shellPass l 0 l.length).length = l.length :=
      (shellPass_perm l 0 l.length).length_eq
    have hsorted := insertionSortFunc_sorted (shellPass l 0 l.length)
    rw [hlen] at hsorted
    have hreslen : (insertionSortFunc (shellPass l 0 l.length) 0 l.length).length =
        l.length := by
      rw [(insertionSortFunc_perm (shellPass l 0 l.length) 0 l.length).length_eq, hlen]
    apply pairwise_of_sortedPfx
    rw [hreslen]
    exact hsorted
  · rw [if_neg h1]
    match l, (by omega : l.length ≤ 1) with
    | [], _ => exact List.Pairwise.nil
    | [x], _ => exact List.pairwise_singleton gePrio x

/-! ### SameOutside infrastructure -/

theorem sameOutside_refl (a b : Nat) (l : List AutocompleteItem) : SameOutside a b l l :=
  ⟨rfl, fun _ _ => rfl⟩

theorem sameOutside_trans {a b : Nat} {l1 l2 l3 : List AutocompleteItem}
    (h1 : SameOutside a b l1 l2) (h2 : SameOutside a b l2 l3) : SameOutside a b l1 l3 :=
  ⟨h2.1.trans h1.1, fun k hk => (h2.2 k hk).trans (h1.2 k hk)⟩

theorem sameOutside_mono {a b a2 b2 : Nat} {l1 l2 : List AutocompleteItem}
    (h : SameOutside a2 b2 l1 l2) (ha : a ≤ a2) (hb : b2 ≤ b) : SameOutside a b l1 l2 :=
  ⟨h.1, fun k hk => h.2 k (by omega)⟩

theorem lswap_sameOutside (l : List AutocompleteItem) {i j a b : Nat}
    (h1 : a ≤ i) (h2 : i < b) (h3 : a ≤ j) (h4 : j < b) :
    SameOutside a b l (lswap l i j) :=
  ⟨lswap_length l i j, fun k hk =>
    geti_lswap_other l i j k (by omega) (by omega)⟩

theorem take_eq_of_sameOutside {l l2 : List AutocompleteItem} {a b : Nat}
    (h : SameOutside a b l l2) : l2.take a = l.take a := by
  apply List.ext_getElem
  · simp [h.1]
  · intro k hk1 hk2
    have hkl : k < l.length := by simp at hk2; omega
    have hkl2 : k < l2.length := by rw [h.1]; exact hkl
    have hka : k < a := by simp [h.1] at hk1; omega
    rw [List.getElem_take, List.getElem_take]
    rw [← geti_eq_getElem l k hkl, ← geti_eq_getElem l2 k hkl2]
    exact h.2 k (Or.inl hka)

theorem drop_eq_of_sameOutside {l l2 : List AutocompleteItem} {a b : Nat}
    (h : SameOutside a b l l2) : l2.drop b = l.drop b := by
  apply List.ext_getElem
  · simp [h.1]
  · intro k hk1 hk2
    have hkl : b + k < l.length := by simp at hk2; omega
    have hkl2 : b + k < l2.length := by rw [h.1]; exact hkl
    rw [List.getElem_drop, List.getElem_drop]
    rw [← geti_eq_getElem l (b + k) hkl, ← geti_eq_getElem l2 (b + k) hkl2]
    exact h.2 (b + k) (Or.inr (by omega))

theorem seg_perm_of_sameOutside {l l2 : List AutocompleteItem} {a b : Nat}
    (hperm : l2.Perm l) (hout : SameOutside a b l l2) (hab : a ≤ b) :
    ((l2.drop a).take (b - a)).Perm ((l.drop a).take (b - a)) := by
  have hco : (l2 : Multiset AutocompleteItem) = (l : Multiset AutocompleteItem) :=
    Multiset.coe_eq_coe.mpr hperm
  have hdec : ∀ m : List AutocompleteItem,
      m = m.take a ++ ((m.drop a).take (b - a) ++ m.drop b) := by
    intro m
    conv_lhs => rw [← List.take_append_drop a m]
    congr 1
    conv_lhs => rw [← List.take_append_drop (b - a) (m.drop a)]
    congr 1
    rw [List.drop_drop]
    congr 1
    omega
  have h1 := hdec l
  have h2 := hdec l2
  rw [take_eq_of_sameOutside hout, drop_eq_of_sameOutside hout] at h2
  have e1 : ((l.take a ++ ((l2.drop a).take (b - a) ++ l.drop b) :
        List AutocompleteItem) : Multiset AutocompleteItem) =
      ((l.take a ++ ((l.drop a).take (b - a) ++ l.drop b) :
        List AutocompleteItem) : Multiset AutocompleteItem) := by
    rw [← h2, ← h1, hco]
  simp only [← Multiset.coe_add] at e1
  have e3 := add_left_cancel e1
  have e4 := add_right_cancel e3
  exact Multiset.coe_eq_coe.mp e4

theorem seg_value_covered {l l2 : List AutocompleteItem} {a b : Nat}
    (hperm : l2.Perm l) (hout : SameOutside a b l l2) (hb : b ≤ l.length) :
    ∀ i, a ≤ i → i < b → ∃ k, a ≤ k ∧ k < b ∧ geti l2 i = geti l k := by
  intro i hai hib
  have hsp := seg_perm_of_sameOutside hperm hout (by omega)
  have hil2 : i < l2.length := by rw [hout.1]; omega
  have hlen : i - a < ((l2.drop a).take (b - a)).length := by
    simp [hout.1]; omega
  have hidx : ((l2.drop a).take (b - a))[i - a] = geti l2 i := by
    rw [List.getElem_take, List.getElem_drop]
    rw [← geti_eq_getElem l2 (a + (i - a)) (by omega)]
    congr 1
    omega
  have hmem : geti l2 i ∈ (l2.drop a).take (b - a) := by
    rw [← hidx]
    exact List.getElem_mem hlen
  have hmem2 : geti l2 i ∈ (l.drop a).take (b - a) := hsp.mem_iff.mp hmem
  obtain ⟨k, hk, hkeq⟩ := List.getElem_of_mem hmem2
  have hkb : k < b - a := by
    have := hk
    simp at this
    omega
  refine ⟨a + k, by omega, by omega, ?_⟩
  rw [← hkeq, List.getElem_take, List.getElem_drop,
    ← geti_eq_getElem l (a + k) (by omega)]

theorem segGe_preserved {l l2 : List AutocompleteItem} {a b : Nat} {v : Int}
    (hperm : l2.Perm l) (hout : SameOutside a b l l2) (hb : b ≤ l.length)
    (hge : ∀ i, a ≤ i → i < b → v ≤ (geti l i).Priority) :
    ∀ i, a ≤ i → i < b → v ≤ (geti l2 i).Priority := by
  intro i h1 h2
  obtain ⟨k, hk1, hk2, hk3⟩ := seg_value_covered hperm hout hb i h1 h2
  rw [hk3]
  exact hge k hk1 hk2

theorem segLe_preserved {l l2 : List AutocompleteItem} {a b : Nat} {v : Int}
    (hperm : l2.Perm l) (hout : SameOutside a b l l2) (hb : b ≤ l.length)
    (hle : ∀ i, a ≤ i → i < b → (geti l i).Priority ≤ v) :
    ∀ i, a ≤ i → i < b → (geti l2 i).Priority ≤ v := by
  intro i h1 h2
  obtain ⟨k, hk1, hk2, hk3⟩ := seg_value_covered hperm hout hb i h1 h2
  rw [hk3]
  exact hle k hk1 hk2

theorem lswap_self (l : List AutocompleteItem) (i : Nat) : lswap l i i = l := by
  unfold lswap
  split
  · next h =>
    apply List.ext_getElem
    · simp
    · intro k h1 h2
      simp only [List.getElem_set]
      split
      · next he =>
        subst he
        exact geti_eq_getElem l _ (by omega)
      · rfl
  · rfl

/-! ### Segment insertion sort: sortedness on [a, b) and locality -/

theorem insStepSeg_sorted (a : Nat) :
    ∀ (j : Nat) (l : List AutocompleteItem) (i : Nat), j ≤ i → i < l.length →
      (∀ m, a ≤ m → m + 1 ≤ i → m + 1 ≠ j →
        (geti l (m + 1)).Priority ≤ (geti l m).Priority) →
      (∀ m, a ≤ m → m + 1 = j → j + 1 ≤ i →
        (geti l (j + 1)).Priority ≤ (geti l m).Priority) →
      SortedPfxFrom (insStep l a j) a (i + 1)
  | 0, l, i, _, _, hA, _ => by
    intro m hma hm
    exact hA m hma (by omega) (by omega)
  | k + 1, l, i, hji, hil, hA, hB => by
    rw [insStep]
    split
    · next hcond =>
      have hak : a ≤ k := by omega
      have hkl : k < l.length := by omega
      have hk1l : k + 1 < l.length := by omega
      have hless : (geti l k).Priority < (geti l (k + 1)).Priority := by
        have := hcond.2
        simpa [lessIdx] using this
      have e1 : geti (lswap l (k + 1) k) k = geti l (k + 1) :=
        geti_lswap_fst l (k + 1) k hk1l hkl
      have e2 : geti (lswap l (k + 1) k) (k + 1) = geti l k :=
        geti_lswap_snd l (k + 1) k hk1l hkl (by omega)
      have e3 : ∀ m, m ≠ k → m ≠ k + 1 → geti (lswap l (k + 1) k) m = geti l m :=
        fun m h1 h2 => geti_lswap_other l (k + 1) k m h2 h1
      apply insStepSeg_sorted a k (lswap l (k + 1) k) i (by omega)
        (by rwa [lswap_length])
      · intro m hma hm hne
        by_cases hmk : m = k
        · subst hmk
          rw [e1, e2]
          exact le_of_lt hless
        · by_cases hmk1 : m = k + 1
          · subst hmk1
            rw [e2, e3 (k + 2) (by omega) (by omega)]
            exact hB k hak rfl (by omega)
          · rw [e3 m hmk hmk1, e3 (m + 1) hne (by omega)]
            exact hA m hma hm (by omega)
      · intro m hma hm hki
        rw [e2, e3 m (by omega) (by omega)]
        have := hA m hma (by omega) (by omega)
        rwa [show m + 1 = k from hm] at this
    · next hcond =>
      intro m hma hm
      by_cases hmk : m + 1 = k + 1
      · have hstop : ¬ ((geti l k).Priority < (geti l (k + 1)).Priority) := by
          intro hlt
          exact hcond ⟨by omega, by simpa [lessIdx] using hlt⟩
        have hmk2 : m = k := by omega
        subst hmk2
        exact le_of_not_lt hstop
      · exact hA m hma (by omega) hmk

theorem insSortGoSeg_sorted (a b : Nat) :
    ∀ (fuel : Nat) (l : List AutocompleteItem) (i : Nat), b ≤ l.length → a + 1 ≤ i →
      b ≤ i + fuel → SortedPfxFrom l a i → SortedPfxFrom (insSortGo a b fuel l i) a b
  | 0, l, i, _, _, hfu, hs => by
    intro m hma hm
    exact hs m hma (by omega)
  | fuel + 1, l, i, hb, hi1, hfu, hs => by
    rw [insSortGo]
    split
    · next hlt =>
      apply insSortGoSeg_sorted a b fuel _ (i + 1) ?_ (by omega) (by omega) ?_
      · rw [(insStep_perm a i l).length_eq]
        exact hb
      · apply insStepSeg_sorted a i l i le_rfl (by omega)
        · intro m hma hm hne
          exact hs m hma (by omega)
        · intro m hma hmj hcontra
          exact absurd hcontra (by omega)
    · next hge =>
      intro m hma hm
      exact hs m hma (by omega)

theorem sortedPfxFrom_le (l : List AutocompleteItem) (a b : Nat) (h : SortedPfxFrom l a b) :
    ∀ (d i j : Nat), j - i ≤ d → a ≤ i → i ≤ j → j < b →
      (geti l j).Priority ≤ (geti l i).Priority
  | 0, i, j, hd, _, hij, _ => by
    have : i = j := by omega
    subst this
    exact le_refl _
  | d + 1, i, j, hd, hai, hij, hj => by
    by_cases heq : i = j
    · subst heq
      exact le_refl _
    · have h1 : (geti l j).Priority ≤ (geti l (j - 1)).Priority := by
        have := h (j - 1) (by omega) (by omega)
        rwa [show j - 1 + 1 = j from by omega] at this
      have h2 : (geti l (j - 1)).Priority ≤ (geti l i).Priority :=
        sortedPfxFrom_le l a b h d i (j - 1) (by omega) hai (by omega) (by omega)
      exact le_trans h1 h2

theorem segSorted_of_pfxFrom {l : List AutocompleteItem} {a b : Nat}
    (h : SortedPfxFrom l a b) : SegSorted l a b := by
  intro i j hai hij hj
  exact sortedPfxFrom_le l a b h (j - i) i j le_rfl hai hij hj

theorem insertionSortFunc_sortedSeg (l : List AutocompleteItem) (a b : Nat)
    (hb : b ≤ l.length) : SegSorted (insertionSortFunc l a b) a b := by
  apply segSorted_of_pfxFrom
  unfold insertionSortFunc
  exact insSortGoSeg_sorted a b (b - a) l (a + 1) hb le_rfl (by omega)
    (fun m hma hm => absurd hm (by omega))

theorem insStep_sameOutside (a b : Nat) :
    ∀ (j : Nat) (l : List AutocompleteItem), j < b → SameOutside a b l (insStep l a j)
  | 0, l, _ => sameOutside_refl a b l
  | k + 1, l, hjb => by
    rw [insStep]
    split
    · next hcond =>
      have h1 := hcond.1
      refine sameOutside_trans ?_ (insStep_sameOutside a b k _ (by omega))
      exact lswap_sameOutside l (by omega) (by omega) (by omega) (by omega)
    · exact sameOutside_refl a b l

theorem insSortGo_sameOutside (a b : Nat) :
    ∀ (fuel : Nat) (l : List AutocompleteItem) (i : Nat), a < i →
      SameOutside a b l (insSortGo a b fuel l i)
  | 0, l, i, _ => sameOutside_refl a b l
  | fuel + 1, l, i, hai => by
    rw [insSortGo]
    split
    · next hib =>
      exact sameOutside_trans (insStep_sameOutside a b i l hib)
        (insSortGo_sameOutside a b fuel _ (i + 1) (by omega))
    · exact sameOutside_refl a b l

theorem insertionSortFunc_sameOutside (l : List AutocompleteItem) (a b : Nat) :
    SameOutside a b l (insertionSortFunc l a b) :=
  insSortGo_sameOutside a b (b - a) l (a + 1) (by omega)

theorem shellGo_sameOutside (a b : Nat) :
    ∀ (fuel : Nat) (l : List AutocompleteItem) (i : Nat), a + 6 ≤ i →
      SameOutside a b l (shellGo b fuel l i)
  | 0, l, i, _ => sameOutside_refl a b l
  | fuel + 1, l, i, hi => by
    rw [shellGo]
    split
    · next hib =>
      refine sameOutside_trans ?_ (shellGo_sameOutside a b fuel _ (i + 1) (by omega))
      split
      · exact lswap_sameOutside l (by omega) hib (by omega) (by omega)
      · exact sameOutside_refl a b l
    · exact sameOutside_refl a b l

theorem shellPass_sameOutside (l : List AutocompleteItem) (a b : Nat) :
    SameOutside a b l (shellPass l a b) :=
  shellGo_sameOutside a b (b - a) l (a + 6) le_rfl

/-! ### Heap sort: siftDown restores the heap, extraction sorts -/

theorem siftDown_sel (l : List AutocompleteItem) (hi first r : Nat) (hch : 2 * r + 1 < hi) :
    ∃ c2, (if 2 * r + 1 + 1 < hi ∧ lessIdx l (first + (2 * r + 1)) (first + (2 * r + 1) + 1)
        then 2 * r + 1 + 1 else 2 * r + 1) = c2 ∧
      (c2 = 2 * r + 1 ∨ c2 = 2 * r + 2) ∧ c2 < hi ∧
      (geti l (first + c2)).Priority ≤ (geti l (first + (2 * r + 1))).Priority ∧
      (2 * r + 2 < hi →
        (geti l (first + c2)).Priority ≤ (geti l (first + (2 * r + 2))).Priority) := by
  split
  · next hs =>
    refine ⟨2 * r + 1 + 1, rfl, Or.inr (by omega), by omega, ?_, ?_⟩
    · have hlt : (geti l (first + (2 * r + 1) + 1)).Priority <
          (geti l (first + (2 * r + 1))).Priority := by
        simpa [lessIdx] using hs.2
      have he : first + (2 * r + 1 + 1) = first + (2 * r + 1) + 1 := by omega
      rw [he]
      exact le_of_lt hlt
    · intro h
      have he : first + (2 * r + 1 + 1) = first + (2 * r + 1) + 1 := by omega
      rw [he]
  · next hs =>
    refine ⟨2 * r + 1, rfl, Or.inl rfl, hch, le_refl _, ?_⟩
    intro h2
    have hnot : ¬ ((geti l (first + (2 * r + 1) + 1)).Priority <
        (geti l (first + (2 * r + 1))).Priority) := by
      intro hlt
      exact hs ⟨by omega, by simpa [lessIdx] using hlt⟩
    have he2 : first + (2 * r + 2) = first + (2 * r + 1) + 1 := by omega
    rw [he2]
    exact le_of_not_lt hnot

theorem siftDownGo_heap (hi first root0 : Nat) :
    ∀ (fuel : Nat) (l : List AutocompleteItem) (r : Nat), hi ≤ fuel + r → root0 ≤ r →
      first + hi ≤ l.length →
      (∀ j, root0 ≤ j → j ≠ r → HeapAt l first hi j) →
      (r ≠ root0 →
        (geti l (first + (r - 1) / 2)).Priority ≤ (geti l (first + r)).Priority ∧
        (2 * r + 1 < hi →
          (geti l (first + (r - 1) / 2)).Priority ≤
            (geti l (first + (2 * r + 1))).Priority) ∧
        (2 * r + 2 < hi →
          (geti l (first + (r - 1) / 2)).Priority ≤
            (geti l (first + (2 * r + 2))).Priority)) →
      ∀ j, root0 ≤ j → HeapAt (siftDownGo hi first fuel l r) first hi j
  | 0, l, r, hfu, hr0, hlen, hA, hB => by
    intro j hj
    by_cases hjr : j = r
    · subst hjr
      exact ⟨fun h => absurd h (by omega), fun h => absurd h (by omega)⟩
    · exact hA j hj hjr
  | fuel + 1, l, r, hfu, hr0, hlen, hA, hB => by
    rw [siftDownGo]
    dsimp only
    by_cases hch : 2 * r + 1 < hi
    · rw [if_pos hch]
      obtain ⟨c2, hc2eq, hc2or, hc2hi, hselL, hselR⟩ := siftDown_sel l hi first r hch
      rw [hc2eq]
      by_cases hlt : lessIdx l (first + r) (first + c2) = true
      · rw [if_pos hlt]
        have hltP : (geti l (first + c2)).Priority < (geti l (first + r)).Priority := by
          simpa [lessIdx] using hlt
        have hrbound : first + r < l.length := by omega
        have hc2bound : first + c2 < l.length := by omega
        have e1 : geti (lswap l (first + r) (first + c2)) (first + c2) =
            geti l (first + r) :=
          geti_lswap_fst l (first + r) (first + c2) hrbound hc2bound
        have e2 : geti (lswap l (first + r) (first + c2)) (first + r) =
            geti l (first + c2) :=
          geti_lswap_snd l (first + r) (first + c2) hrbound hc2bound (by omega)
        have e3 : ∀ k, k ≠ first + r → k ≠ first + c2 →
            geti (lswap l (first + r) (first + c2)) k = geti l k :=
          fun k h1 h2 => geti_lswap_other l (first + r) (first + c2) k h1 h2
        apply siftDownGo_heap hi first root0 fuel (lswap l (first + r) (first + c2)) c2
          (by omega) (by omega) (by rw [lswap_length]; exact hlen)
        · intro j hj hjc2
          by_cases hjr : j = r
          · subst hjr
            constructor
            · intro h1
              rw [e2]
              rcases hc2or with hcl | hcr
              · rw [show (2 : Nat) * j + 1 = c2 from by omega, e1]
                exact le_of_lt hltP
              · rw [e3 (first + (2 * j + 1)) (by omega) (by omega)]
                exact hselL
            · intro h2
              rw [e2]
              rcases hc2or with hcl | hcr
              · rw [e3 (first + (2 * j + 2)) (by omega) (by omega)]
                exact hselR h2
              · rw [show (2 : Nat) * j + 2 = c2 from by omega, e1]
                exact le_of_lt hltP
          · have hAj := hA j hj hjr
            constructor
            · intro h1
              rw [e3 (first + j) (by omega) (by omega)]
              by_cases hcr : 2 * j + 1 = r
              · have hrne : r ≠ root0 := by omega
                have hBr := hB hrne
                have hpar : (r - 1) / 2 = j := by omega
                rw [show 2 * j + 1 = r from hcr, e2]
                rcases hc2or with hcl | hcr2
                · have hx := hBr.2.1 (by omega)
                  rw [hpar] at hx
                  rw [show c2 = 2 * r + 1 from hcl]
                  exact hx
                · have hx := hBr.2.2 (by omega)
                  rw [hpar] at hx
                  rw [show c2 = 2 * r + 2 from hcr2]
                  exact hx
              · rw [e3 (first + (2 * j + 1)) (by omega) (by omega)]
                exact hAj.1 h1
            · intro h2
              rw [e3 (first + j) (by omega) (by omega)]
              by_cases hcr : 2 * j + 2 = r
              · have hrne : r ≠ root0 := by omega
                have hBr := hB hrne
                have hpar : (r - 1) / 2 = j := by omega
                rw [show 2 * j + 2 = r from hcr, e2]
                rcases hc2or with hcl | hcr2
                · have hx := hBr.2.1 (by omega)
                  rw [hpar] at hx
                  rw [show c2 = 2 * r + 1 from hcl]
                  exact hx
                · have hx := hBr.2.2 (by omega)
                  rw [hpar] at hx
                  rw [show c2 = 2 * r + 2 from hcr2]
                  exact hx
              · rw [e3 (first + (2 * j + 2)) (by omega) (by omega)]
                exact hAj.2 h2
        · intro _
          have hpar2 : (c2 - 1) / 2 = r := by omega
          refine ⟨?_, ?_, ?_⟩
          · rw [hpar2, e2, e1]
            exact le_of_lt hltP
          · intro h1
            rw [hpar2, e2, e3 (first + (2 * c2 + 1)) (by omega) (by omega)]
            exact (hA c2 (by omega) (by omega)).1 h1
          · intro h2
            rw [hpar2, e2, e3 (first + (2 * c2 + 2)) (by omega) (by omega)]
            exact (hA c2 (by omega) (by omega)).2 h2
      · rw [if_neg hlt]
        have hge : (geti l (first + r)).Priority ≤ (geti l (first + c2)).Priority := by
          by_contra hcon
          exact hlt (by simp [lessIdx]; omega)
        intro j hj
        by_cases hjr : j = r
        · subst hjr
          constructor
          · intro h1
            exact le_trans hge hselL
          · intro h2
            exact le_trans hge (hselR h2)
        · exact hA j hj hjr
    · rw [if_neg hch]
      intro j hj
      by_cases hjr : j = r
      · subst hjr
        exact ⟨fun h => absurd h (by omega), fun h => absurd h (by omega)⟩
      · exact hA j hj hjr

theorem siftDownGo_sameOutside (hi first : Nat) :
    ∀ (fuel : Nat) (l : List AutocompleteItem) (r : Nat),
      SameOutside first (first + hi) l (siftDownGo hi first fuel l r)
  | 0, l, r => sameOutside_refl _ _ l
  | fuel + 1, l, r => by
    rw [siftDownGo]
    dsimp only
    by_cases hch : 2 * r + 1 < hi
    · rw [if_pos hch]
      obtain ⟨c2, hc2eq, hc2or, hc2hi, _, _⟩ := siftDown_sel l hi first r hch
      rw [hc2eq]
      by_cases hlt : lessIdx l (first + r) (first + c2) = true
      · rw [if_pos hlt]
        refine sameOutside_trans ?_ (siftDownGo_sameOutside hi first fuel _ c2)
        exact lswap_sameOutside l (by omega) (by omega) (by omega) (by omega)
      · rw [if_neg hlt]
        exact sameOutside_refl _ _ l
    · rw [if_neg hch]
      exact sameOutside_refl _ _ l

theorem heapRootMin (l : List AutocompleteItem) (first m : Nat)
    (hh : ∀ j, HeapAt l first m j) :
    ∀ (d j : Nat), j ≤ d → j < m → (geti l first).Priority ≤ (geti l (first + j)).Priority
  | 0, j, hd, hm => by
    have hj : j = 0 := by omega
    subst hj
    simp
  | d + 1, j, hd, hm => by
    by_cases hj0 : j = 0
    · subst hj0
      simp
    · have hor : j = 2 * ((j - 1) / 2) + 1 ∨ j = 2 * ((j - 1) / 2) + 2 := by omega
      have hIH := heapRootMin l first m hh d ((j - 1) / 2) (by omega) (by omega)
      rcases hor with h1 | h2
      · have hx := (hh ((j - 1) / 2)).1 (by omega)
        rw [← h1] at hx
        exact le_trans hIH hx
      · have hx := (hh ((j - 1) / 2)).2 (by omega)
        rw [← h2] at hx
        exact le_trans hIH hx

theorem heapify_heap (hi first : Nat) :
    ∀ (n : Nat) (l : List AutocompleteItem), first + hi ≤ l.length →
      (∀ j, n ≤ j → HeapAt l first hi j) →
      ∀ j, HeapAt (heapify l hi first n) first hi j
  | 0, l, _, hh => fun j => hh j (by omega)
  | n + 1, l, hlen, hh => by
    rw [heapify]
    apply heapify_heap hi first n _ ?_ ?_
    · rw [(siftDownFrom_perm l n hi first).length_eq]
      exact hlen
    · intro j hj
      exact siftDownGo_heap hi first n hi l n (by omega) le_rfl hlen
        (fun j2 hj2 hne => hh j2 (by omega)) (fun hne => absurd rfl hne) j hj

theorem heapify_sameOutside (hi first : Nat) :
    ∀ (n : Nat) (l : List AutocompleteItem),
      SameOutside first (first + hi) l (heapify l hi first n)
  | 0, l => sameOutside_refl _ _ l
  | n + 1, l =>
    sameOutside_trans (siftDownGo_sameOutside hi first hi l n)
      (heapify_sameOutside hi first n _)

theorem heapExtract_sameOutside (first N : Nat) :
    ∀ (m : Nat) (l : List AutocompleteItem), m ≤ N →
      SameOutside first (first + N) l (heapExtract l first m)
  | 0, l, _ => sameOutside_refl _ _ l
  | m + 1, l, hm => by
    rw [heapExtract]
    refine sameOutside_trans (sameOutside_trans
      (lswap_sameOutside l (le_refl first) (by omega) (by omega) (by omega))
      (sameOutside_mono
        (siftDownGo_sameOutside m first m (lswap l first (first + m)) 0)
        le_rfl (by omega)))
      (heapExtract_sameOutside first N m _ (by omega))

theorem heapExtract_sorted (first N : Nat) :
    ∀ (m : Nat) (l : List AutocompleteItem), m ≤ N → first + N ≤ l.length →
      (∀ j, HeapAt l first m j) →
      (∀ i j, m ≤ i → i ≤ j → j < N →
        (geti l (first + j)).Priority ≤ (geti l (first + i)).Priority) →
      (∀ i j, i < m → m ≤ j → j < N →
        (geti l (first + j)).Priority ≤ (geti l (first + i)).Priority) →
      (∀ i j, i ≤ j → j < N →
        (geti (heapExtract l first m) (first + j)).Priority ≤
        (geti (heapExtract l first m) (first + i)).Priority)
  | 0, l, _, _, _, htail, _ => by
    intro i j hij hj
    exact htail i j (by omega) hij hj
  | m + 1, l, hmN, hlen, hheap, htail, hcross => by
    rw [heapExtract]
    have hm1 : first + m < l.length := by omega
    have hfl : first < l.length := by omega
    have hmin : ∀ j, j < m + 1 →
        (geti l first).Priority ≤ (geti l (first + j)).Priority :=
      fun j hj => heapRootMin l first (m + 1) hheap (m + 1) j (by omega) hj
    have E1 : geti (lswap l first (first + m)) first = geti l (first + m) := by
      by_cases hm0 : m = 0
      · subst hm0
        simp only [Nat.add_zero, lswap_self]
      · exact geti_lswap_snd l first (first + m) hfl hm1 (by omega)
    have E2 : geti (lswap l first (first + m)) (first + m) = geti l first := by
      by_cases hm0 : m = 0
      · subst hm0
        simp only [Nat.add_zero, lswap_self]
      · exact geti_lswap_fst l first (first + m) hfl hm1
    have E3 : ∀ k, k ≠ first → k ≠ first + m →
        geti (lswap l first (first + m)) k = geti l k :=
      fun k h1 h2 => geti_lswap_other l first (first + m) k h1 h2
    have hA1 : ∀ j2, 0 ≤ j2 → j2 ≠ 0 → HeapAt (lswap l first (first + m)) first m j2 := by
      intro j2 hj2 hne
      constructor
      · intro h1
        rw [E3 (first + j2) (by omega) (by omega),
          E3 (first + (2 * j2 + 1)) (by omega) (by omega)]
        exact (hheap j2).1 (by omega)
      · intro h2
        rw [E3 (first + j2) (by omega) (by omega),
          E3 (first + (2 * j2 + 2)) (by omega) (by omega)]
        exact (hheap j2).2 (by omega)
    have hheap2 : ∀ j, HeapAt (siftDownFrom (lswap l first (first + m)) 0 m first)
        first m j := by
      intro j
      exact siftDownGo_heap m first 0 m (lswap l first (first + m)) 0 (by omega) (by omega)
        (by rw [lswap_length]; omega) hA1 (fun h => absurd rfl h) j (by omega)
    have l2out : SameOutside first (first + m) (lswap l first (first + m))
        (siftDownFrom (lswap l first (first + m)) 0 m first) :=
      siftDownGo_sameOutside m first m _ 0
    have hup : ∀ k, first + m ≤ k →
        geti (siftDownFrom (lswap l first (first + m)) 0 m first) k =
        geti (lswap l first (first + m)) k :=
      fun k hk => l2out.2 k (Or.inr hk)
    have htail2 : ∀ i j, m ≤ i → i ≤ j → j < N →
        (geti (siftDownFrom (lswap l first (first + m)) 0 m first) (first + j)).Priority ≤
        (geti (siftDownFrom (lswap l first (first + m)) 0 m first) (first + i)).Priority := by
      intro i j hmi hij hjN
      rw [hup (first + i) (by omega), hup (first + j) (by omega)]
      by_cases him : i = m
      · by_cases hjm : j = m
        · rw [him, hjm]
        · rw [him, E2, E3 (first + j) (by omega) (by omega)]
          have hx := hcross 0 j (by omega) (by omega) hjN
          simpa using hx
      · rw [E3 (first + i) (by omega) (by omega), E3 (first + j) (by omega) (by omega)]
        exact htail i j (by omega) hij hjN
    have hcross2 : ∀ i j, i < m → m ≤ j → j < N →
        (geti (siftDownFrom (lswap l first (first + m)) 0 m first) (first + j)).Priority ≤
        (geti (siftDownFrom (lswap l first (first + m)) 0 m first) (first + i)).Priority := by
      intro i j him hmj hjN
      obtain ⟨k, hk1, hk2, hk3⟩ := seg_value_covered (siftDownFrom_perm _ 0 m first) l2out
        (by rw [lswap_length]; omega) (first + i) (by omega) (by omega)
      rw [hk3, hup (first + j) (by omega)]
      by_cases hkf : k = first
      · rw [hkf, E1]
        by_cases hjm : j = m
        · rw [hjm, E2]
          exact hmin m (by omega)
        · rw [E3 (first + j) (by omega) (by omega)]
          exact hcross m j (by omega) (by omega) hjN
      · rw [E3 k hkf (by omega)]
        by_cases hjm : j = m
        · rw [hjm, E2]
          have hx := hmin (k - first) (by omega)
          rw [show first + (k - first) = k from by omega] at hx
          exact hx
        · rw [E3 (first + j) (by omega) (by omega)]
          have hx := hcross (k - first) j (by omega) (by omega) hjN
          rw [show first + (k - first) = k from by omega] at hx
          exact hx
    exact heapExtract_sorted first N m _ (by omega)
      (by rw [(siftDownFrom_perm _ 0 m first).length_eq, lswap_length]; exact hlen)
      hheap2 htail2 hcross2

theorem heapSortFunc_sameOutside (l : List AutocompleteItem) (a b : Nat) (hab : a ≤ b) :
    SameOutside a b l (heapSortFunc l a b) := by
  unfold heapSortFunc
  have h1 := heapify_sameOutside (b - a) a ((b - a - 1) / 2 + 1) l
  have h2 := heapExtract_sameOutside a (b - a) (b - a)
    (heapify l (b - a) a ((b - a - 1) / 2 + 1)) le_rfl
  have h3 := sameOutside_trans h1 h2
  rwa [show a + (b - a) = b from by omega] at h3

theorem heapSortFunc_sortedSeg (l : List AutocompleteItem) (a b : Nat)
    (hab : a ≤ b) (hb : b ≤ l.length) : SegSorted (heapSortFunc l a b) a b := by
  have hify : ∀ j, HeapAt (heapify l (b - a) a ((b - a - 1) / 2 + 1)) a (b - a) j := by
    apply heapify_heap (b - a) a ((b - a - 1) / 2 + 1) l (by omega)
    intro j hj
    exact ⟨fun h => absurd h (by omega), fun h => absurd h (by omega)⟩
  have hlen2 : a + (b - a) ≤ (heapify l (b - a) a ((b - a - 1) / 2 + 1)).length := by
    rw [(heapify_perm (b - a) a ((b - a - 1) / 2 + 1) l).length_eq]
    omega
  have hex := heapExtract_sorted a (b - a) (b - a) _ le_rfl hlen2 hify
    (fun i j h1 h2 h3 => absurd h3 (by omega))
    (fun i j h1 h2 h3 => absurd h3 (by omega))
  intro i j hai hij hjb
  have hx := hex (i - a) (j - a) (by omega) (by omega)
  rw [show a + (j - a) = j from by omega, show a + (i - a) = i from by omega] at hx
  exact hx

/-! ### doPivot: median selection and scan specifications -/

theorem medianOfThree_pivotGe (l : List AutocompleteItem) (m1 m0 m2 : Nat)
    (h1 : m1 < l.length) (h0 : m0 < l.length) (h2 : m2 < l.length)
    (h10 : m1 ≠ m0) (h20 : m2 ≠ m0) (h21 : m2 ≠ m1) :
    (geti (medianOfThree l m1 m0 m2) m2).Priority ≤
      (geti (medianOfThree l m1 m0 m2) m1).Priority := by
  unfold medianOfThree
  dsimp only
  set l1 := if lessIdx l m1 m0 = true then lswap l m1 m0 else l with hl1
  have hlen1 : l1.length = l.length := by
    rw [hl1]
    split
    · exact lswap_length l m1 m0
    · rfl
  have stage1 : (geti l1 m1).Priority ≤ (geti l1 m0).Priority := by
    rw [hl1]
    split
    · next hl =>
      rw [geti_lswap_snd l m1 m0 h1 h0 (by omega), geti_lswap_fst l m1 m0 h1 h0]
      have hx : (geti l m0).Priority < (geti l m1).Priority := by
        simpa [lessIdx] using hl
      exact le_of_lt hx
    · next hl =>
      have hx : ¬ ((geti l m0).Priority < (geti l m1).Priority) := by
        intro hlt
        exact hl (by simp [lessIdx]; omega)
      exact le_of_not_lt hx
  split
  · next houter =>
    have h1b : m1 < l1.length := by omega
    have h2b : m2 < l1.length := by omega
    have h0b : m0 < l1.length := by omega
    have f1 : geti (lswap l1 m2 m1) m1 = geti l1 m2 :=
      geti_lswap_fst l1 m2 m1 h2b h1b
    have f2 : geti (lswap l1 m2 m1) m2 = geti l1 m1 :=
      geti_lswap_snd l1 m2 m1 h2b h1b (by omega)
    have f0 : geti (lswap l1 m2 m1) m0 = geti l1 m0 :=
      geti_lswap_other l1 m2 m1 m0 (by omega) (by omega)
    have houterP : (geti l1 m1).Priority < (geti l1 m2).Priority := by
      simpa [lessIdx] using houter
    split
    · next hinner =>
      have h1c : m1 < (lswap l1 m2 m1).length := by rw [lswap_length]; omega
      have h0c : m0 < (lswap l1 m2 m1).length := by rw [lswap_length]; omega
      rw [geti_lswap_other (lswap l1 m2 m1) m1 m0 m2 (by omega) (by omega)]
      rw [geti_lswap_snd (lswap l1 m2 m1) m1 m0 h1c h0c (by omega)]
      rw [f2, f0]
      exact stage1
    · next hinner =>
      rw [f2, f1]
      exact le_of_lt houterP
  · next houter =>
    have hx : ¬ ((geti l1 m1).Priority < (geti l1 m2).Priority) := by
      intro hlt
      exact houter (by simp [lessIdx]; omega)
    exact le_of_not_lt hx

theorem pivotMedians_pivotGe (l : List AutocompleteItem) (lo hi m : Nat)
    (hm : m = (lo + hi) / 2) (h12 : 12 < hi - lo) (hlen : hi ≤ l.length) :
    (geti (pivotMedians l lo hi m) (hi - 1)).Priority ≤
      (geti (pivotMedians l lo hi m) lo).Priority := by
  have key : ∀ lx : List AutocompleteItem, lx.length = l.length →
      (geti (medianOfThree lx lo m (hi - 1)) (hi - 1)).Priority ≤
        (geti (medianOfThree lx lo m (hi - 1)) lo).Priority := by
    intro lx hlx
    exact medianOfThree_pivotGe lx lo m (hi - 1) (by omega) (by omega) (by omega)
      (by omega) (by omega) (by omega)
  unfold pivotMedians
  dsimp only
  split
  · exact key _ (by
      rw [(medianOfThree_perm _ _ _ _).length_eq, (medianOfThree_perm _ _ _ _).length_eq,
        (medianOfThree_perm _ _ _ _).length_eq])
  · exact key l rfl

theorem medianOfThree_sameOutside (l : List AutocompleteItem) (m1 m0 m2 a b : Nat)
    (h1a : a ≤ m1) (h1b : m1 < b) (h0a : a ≤ m0) (h0b : m0 < b)
    (h2a : a ≤ m2) (h2b : m2 < b) :
    SameOutside a b l (medianOfThree l m1 m0 m2) := by
  unfold medianOfThree
  dsimp only
  have hs : ∀ lx : List AutocompleteItem, SameOutside a b lx (lswap lx m1 m0) :=
    fun lx => lswap_sameOutside lx h1a h1b h0a h0b
  have hs2 : ∀ lx : List AutocompleteItem, SameOutside a b lx (lswap lx m2 m1) :=
    fun lx => lswap_sameOutside lx h2a h2b h1a h1b
  repeat' split
  all_goals
    first
      | exact sameOutside_refl a b l
      | exact hs l
      | exact sameOutside_trans (hs l) (hs2 _)
      | exact sameOutside_trans (sameOutside_trans (hs l) (hs2 _)) (hs _)
      | exact hs2 l
      | exact sameOutside_trans (hs2 l) (hs _)

theorem pivotMedians_sameOutside (l : List AutocompleteItem) (lo hi m : Nat)
    (hm : m = (lo + hi) / 2) (h12 : 12 < hi - lo) :
    SameOutside lo hi l (pivotMedians l lo hi m) := by
  unfold pivotMedians
  dsimp only
  refine sameOutside_trans ?_
    (medianOfThree_sameOutside _ lo m (hi - 1) lo hi le_rfl (by omega) (by omega) (by omega)
      (by omega) (by omega))
  split
  · next h40 =>
    exact sameOutside_trans
      (medianOfThree_sameOutside l lo (lo + (hi - lo) / 8) (lo + 2 * ((hi - lo) / 8))
        lo hi le_rfl (by omega) (by omega) (by omega) (by omega) (by omega))
      (sameOutside_trans
        (medianOfThree_sameOutside _ m (m - (hi - lo) / 8) (m + (hi - lo) / 8)
          lo hi (by omega) (by omega) (by omega) (by omega) (by omega) (by omega))
        (medianOfThree_sameOutside _ (hi - 1) (hi - 1 - (hi - lo) / 8)
          (hi - 1 - 2 * ((hi - lo) / 8)) lo hi (by omega) (by omega) (by omega) (by omega)
          (by omega) (by omega)))
  · exact sameOutside_refl lo hi l

theorem scanAGo_spec (l : List AutocompleteItem) (pivot c : Nat) :
    ∀ (fuel : Nat) (a : Nat), c ≤ a + fuel → a ≤ c →
      a ≤ scanAGo l pivot c fuel a ∧ scanAGo l pivot c fuel a ≤ c ∧
      (∀ i, a ≤ i → i < scanAGo l pivot c fuel a →
        (geti l pivot).Priority < (geti l i).Priority) ∧
      (scanAGo l pivot c fuel a < c →
        ¬ ((geti l pivot).Priority < (geti l (scanAGo l pivot c fuel a)).Priority))
  | 0, a, hfu, hac => by
    rw [scanAGo]
    exact ⟨le_rfl, hac, fun i hx1 hx2 => absurd hx2 (by omega),
      fun h => absurd h (by omega)⟩
  | fuel + 1, a, hfu, hac => by
    rw [scanAGo]
    split
    · next hcond =>
      obtain ⟨r1, r2, r3, r4⟩ := scanAGo_spec l pivot c fuel (a + 1) (by omega)
        (by omega)
      refine ⟨by omega, r2, ?_, r4⟩
      intro i hx1 hx2
      by_cases hia : i = a
      · subst hia
        simpa [lessIdx] using hcond.2
      · exact r3 i (by omega) hx2
    · next hcond =>
      refine ⟨le_rfl, hac, fun i hx1 hx2 => absurd hx2 (by omega), ?_⟩
      intro hlt hP
      exact hcond ⟨hlt, by simp [lessIdx]; omega⟩

theorem scanBGo_spec (l : List AutocompleteItem) (pivot c : Nat) :
    ∀ (fuel : Nat) (b : Nat), c ≤ b + fuel → b ≤ c →
      b ≤ scanBGo l pivot c fuel b ∧ scanBGo l pivot c fuel b ≤ c ∧
      (∀ i, b ≤ i → i < scanBGo l pivot c fuel b →
        ¬ ((geti l i).Priority < (geti l pivot).Priority)) ∧
      (scanBGo l pivot c fuel b < c →
        (geti l (scanBGo l pivot c fuel b)).Priority < (geti l pivot).Priority)
  | 0, b, hfu, hbc => by
    rw [scanBGo]
    exact ⟨le_rfl, hbc, fun i hx1 hx2 => absurd hx2 (by omega),
      fun h => absurd h (by omega)⟩
  | fuel + 1, b, hfu, hbc => by
    rw [scanBGo]
    split
    · next hcond =>
      obtain ⟨r1, r2, r3, r4⟩ := scanBGo_spec l pivot c fuel (b + 1) (by omega)
        (by omega)
      refine ⟨by omega, r2, ?_, r4⟩
      intro i hx1 hx2
      by_cases hib : i = b
      · subst hib
        intro hP
        exact hcond.2 (by simp [lessIdx]; omega)
      · exact r3 i (by omega) hx2
    · next hcond =>
      refine ⟨le_rfl, hbc, fun i hx1 hx2 => absurd hx2 (by omega), ?_⟩
      intro hlt
      by_contra hP
      exact hcond ⟨hlt, by simp [lessIdx]; omega⟩

theorem scanC_spec (l : List AutocompleteItem) (pivot b : Nat) :
    ∀ (c : Nat), b ≤ c →
      b ≤ scanC l pivot b c ∧ scanC l pivot b c ≤ c ∧
      (∀ i, scanC l pivot b c ≤ i → i < c →
        (geti l i).Priority < (geti l pivot).Priority) ∧
      (b < scanC l pivot b c →
        ¬ ((geti l (scanC l pivot b c - 1)).Priority < (geti l pivot).Priority))
  | 0, hbc => by
    rw [scanC]
    exact ⟨by omega, le_rfl, fun i hx1 hx2 => absurd hx2 (by omega),
      fun h => absurd h (by omega)⟩
  | c + 1, hbc => by
    rw [scanC]
    split
    · next hcond =>
      obtain ⟨r1, r2, r3, r4⟩ := scanC_spec l pivot b c (by omega)
      refine ⟨r1, by omega, ?_, r4⟩
      intro i hx1 hx2
      by_cases hic : i = c
      · subst hic
        simpa [lessIdx] using hcond.2
      · exact r3 i hx1 (by omega)
    · next hcond =>
      refine ⟨by omega, le_rfl, fun i hx1 hx2 => absurd hx2 (by omega), ?_⟩
      intro hb1 hP
      rw [Nat.succ_sub_one] at hP
      exact hcond ⟨by omega, by simp [lessIdx]; omega⟩

theorem protScanB_spec (l : List AutocompleteItem) (pivot a : Nat) :
    ∀ (b : Nat), a ≤ b →
      a ≤ protScanB l pivot a b ∧ protScanB l pivot a b ≤ b ∧
      (∀ i, protScanB l pivot a b ≤ i → i < b →
        ¬ ((geti l pivot).Priority < (geti l i).Priority)) ∧
      (a < protScanB l pivot a b →
        (geti l pivot).Priority < (geti l (protScanB l pivot a b - 1)).Priority)
  | 0, hab => by
    rw [protScanB]
    exact ⟨by omega, le_rfl, fun i hx1 hx2 => absurd hx2 (by omega),
      fun h => absurd h (by omega)⟩
  | b + 1, hab => by
    rw [protScanB]
    split
    · next hcond =>
      obtain ⟨r1, r2, r3, r4⟩ := protScanB_spec l pivot a b (by omega)
      refine ⟨r1, by omega, ?_, r4⟩
      intro i hx1 hx2
      by_cases hib : i = b
      · subst hib
        intro hP
        exact hcond.2 (by simp [lessIdx]; omega)
      · exact r3 i hx1 (by omega)
    · next hcond =>
      refine ⟨by omega, le_rfl, fun i hx1 hx2 => absurd hx2 (by omega), ?_⟩
      intro ha1
      rw [Nat.succ_sub_one]
      by_contra hP
      exact hcond ⟨ha1, fun hl => hP (by simpa [lessIdx] using hl)⟩

theorem protScanAGo_spec (l : List AutocompleteItem) (pivot b : Nat) :
    ∀ (fuel : Nat) (a : Nat), b ≤ a + fuel → a ≤ b →
      a ≤ protScanAGo l pivot b fuel a ∧ protScanAGo l pivot b fuel a ≤ b ∧
      (∀ i, a ≤ i → i < protScanAGo l pivot b fuel a →
        (geti l pivot).Priority < (geti l i).Priority) ∧
      (protScanAGo l pivot b fuel a < b →
        ¬ ((geti l pivot).Priority < (geti l (protScanAGo l pivot b fuel a)).Priority))
  | 0, a, hfu, hab => by
    rw [protScanAGo]
    exact ⟨le_rfl, hab, fun i hx1 hx2 => absurd hx2 (by omega),
      fun h => absurd h (by omega)⟩
  | fuel + 1, a, hfu, hab => by
    rw [protScanAGo]
    split
    · next hcond =>
      obtain ⟨r1, r2, r3, r4⟩ := protScanAGo_spec l pivot b fuel (a + 1) (by omega)
        (by omega)
      refine ⟨by omega, r2, ?_, r4⟩
      intro i hx1 hx2
      by_cases hia : i = a
      · subst hia
        simpa [lessIdx] using hcond.2
      · exact r3 i (by omega) hx2
    · next hcond =>
      refine ⟨le_rfl, hab, fun i hx1 hx2 => absurd hx2 (by omega), ?_⟩
      intro hlt hP
      exact hcond ⟨hlt, by simp [lessIdx]; omega⟩

/-! ### doPivot: the partition loop and the protect loop -/

theorem partLoop_spec (lo hi a0 : Nat) (pv : Int) :
    ∀ (fuel : Nat) (l : List AutocompleteItem) (b c : Nat),
      c - b < fuel → lo < a0 → a0 ≤ b → b ≤ c → c ≤ hi - 1 → hi ≤ l.length →
      (geti l lo).Priority = pv →
      (∀ i, a0 ≤ i → i < b → pv ≤ (geti l i).Priority) →
      (∀ i, c ≤ i → i < hi - 1 → (geti l i).Priority < pv) →
      ∀ l2 b2 c2, partLoop lo fuel l b c = (l2, b2, c2) →
        b2 = c2 ∧ b ≤ b2 ∧ c2 ≤ c ∧ SameOutside b c l l2 ∧
        (geti l2 lo).Priority = pv ∧
        (∀ i, a0 ≤ i → i < b2 → pv ≤ (geti l2 i).Priority) ∧
        (∀ i, c2 ≤ i → i < hi - 1 → (geti l2 i).Priority < pv)
  | 0, l, b, c, hfu, _, _, _, _, _, _, _, _ => absurd hfu (by omega)
  | fuel + 1, l, b, c, hfu, hloa, ha0b, hbc, hch, hlen, hpv, hzone2, hzone3 => by
    intro l2 b2 c2 heq
    rw [partLoop] at heq
    set B := scanBGo l lo c (c - b) b with hB
    set C := scanC l lo B c with hC
    have hs := scanBGo_spec l lo c (c - b) b (by omega) hbc
    rw [← hB] at hs
    obtain ⟨s1, s2, s3, s4⟩ := hs
    have ht := scanC_spec l lo B c s2
    rw [← hC] at ht
    obtain ⟨t1, t2, t3, t4⟩ := ht
    split at heq
    · next hexit =>
      injection heq with hA hBC
      injection hBC with hb2 hc2
      subst hA
      subst hb2
      subst hc2
      refine ⟨by omega, s1, t2, sameOutside_refl _ _ _, hpv, ?_, ?_⟩
      · intro i hx1 hx2
        by_cases hib : i < b
        · exact hzone2 i hx1 hib
        · have hni := s3 i (by omega) (by omega)
          rw [hpv] at hni
          omega
      · intro i hx1 hx2
        by_cases hic : c ≤ i
        · exact hzone3 i hic hx2
        · have hlt := t3 i (by omega) (by omega)
          rw [hpv] at hlt
          exact hlt
    · next hexit =>
      have hBC2 : B < C := by omega
      have hBc : B < c := by omega
      have hPB : (geti l B).Priority < pv := by
        have := s4 hBc
        rw [hpv] at this
        exact this
      have hPC : pv ≤ (geti l (C - 1)).Priority := by
        have := t4 (by omega)
        rw [hpv] at this
        omega
      have hneq : B < C - 1 := by
        rcases Nat.lt_or_ge B (C - 1) with h | h
        · exact h
        · have hbe : B = C - 1 := by omega
          rw [← hbe] at hPC
          omega
      have hlB : B < l.length := by omega
      have hlC : C - 1 < l.length := by omega
      have g1 : geti (lswap l B (C - 1)) (C - 1) = geti l B :=
        geti_lswap_fst l B (C - 1) hlB hlC
      have g2 : geti (lswap l B (C - 1)) B = geti l (C - 1) :=
        geti_lswap_snd l B (C - 1) hlB hlC (by omega)
      have g3 : ∀ k, k ≠ B → k ≠ C - 1 → geti (lswap l B (C - 1)) k = geti l k :=
        fun k hx1 hx2 => geti_lswap_other l B (C - 1) k hx1 hx2
      have hrec := partLoop_spec lo hi a0 pv fuel (lswap l B (C - 1)) (B + 1) (C - 1)
        (by omega) hloa (by omega) (by omega) (by omega)
        (by rw [lswap_length]; exact hlen)
        (by rw [g3 lo (by omega) (by omega)]; exact hpv)
        ?_ ?_ l2 b2 c2 heq
      · obtain ⟨w1, w2, w3, w4, w5, w6, w7⟩ := hrec
        refine ⟨w1, by omega, by omega, ?_, w5, w6, w7⟩
        refine sameOutside_trans ?_ (sameOutside_mono w4 (by omega) (by omega))
        exact lswap_sameOutside l (by omega) (by omega) (by omega) (by omega)
      · intro i hx1 hx2
        by_cases hiB : i = B
        · rw [hiB, g2]
          exact hPC
        · rw [g3 i (by omega) (by omega)]
          by_cases hib : i < b
          · exact hzone2 i hx1 hib
          · have hni := s3 i (by omega) (by omega)
            rw [hpv] at hni
            omega
      · intro i hx1 hx2
        by_cases hiC : i = C - 1
        · rw [hiC, g1]
          exact hPB
        · rw [g3 i (by omega) (by omega)]
          by_cases hic : c ≤ i
          · exact hzone3 i hic hx2
          · have hlt := t3 i (by omega) (by omega)
            rw [hpv] at hlt
            exact hlt

theorem protectLoop_spec (lo hi a0 b0 : Nat) (pv : Int) :
    ∀ (fuel : Nat) (l : List AutocompleteItem) (a b : Nat),
      b - a < fuel → lo < a0 → a0 ≤ a → a ≤ b → b ≤ b0 → b0 ≤ hi → hi ≤ l.length →
      (geti l lo).Priority = pv →
      (∀ i, lo < i → i < a → pv < (geti l i).Priority) →
      (∀ i, a ≤ i → i < b → pv ≤ (geti l i).Priority) →
      (∀ i, b ≤ i → i < b0 → (geti l i).Priority = pv) →
      ∀ l2 a2 b2, protectLoop lo fuel l a b = (l2, a2, b2) →
        a2 = b2 ∧ a ≤ a2 ∧ b2 ≤ b ∧ SameOutside a b l l2 ∧
        (geti l2 lo).Priority = pv ∧
        (∀ i, lo < i → i < a2 → pv < (geti l2 i).Priority) ∧
        (∀ i, b2 ≤ i → i < b0 → (geti l2 i).Priority = pv)
  | 0, l, a, b, hfu, _, _, _, _, _, _, _, _, _, _ => absurd hfu (by omega)
  | fuel + 1, l, a, b, hfu, hloa, ha0a, hab, hbb0, hb0hi, hlen, hpv, hIa, hmid, hIb => by
    intro l2 a2 b2 heq
    rw [protectLoop] at heq
    set B := protScanB l lo a b with hB
    set A := protScanAGo l lo B (B - a) a with hA
    have hs := protScanB_spec l lo a b hab
    rw [← hB] at hs
    obtain ⟨u1, u2, u3, u4⟩ := hs
    have ht := protScanAGo_spec l lo B (B - a) a (by omega) u1
    rw [← hA] at ht
    obtain ⟨v1, v2, v3, v4⟩ := ht
    split at heq
    · next hexit =>
      injection heq with hL hAB
      injection hAB with ha2 hb2
      subst hL
      subst ha2
      subst hb2
      refine ⟨by omega, v1, u2, sameOutside_refl _ _ _, hpv, ?_, ?_⟩
      · intro i hx1 hx2
        by_cases hia : i < a
        · exact hIa i hx1 hia
        · have hlt := v3 i (by omega) (by omega)
          rw [hpv] at hlt
          exact hlt
      · intro i hx1 hx2
        by_cases hib : b ≤ i
        · exact hIb i hib hx2
        · have hni := u3 i (by omega) (by omega)
          rw [hpv] at hni
          have hge := hmid i (by omega) (by omega)
          omega
    · next hexit =>
      have hAB2 : A < B := by omega
      have hPA : (geti l A).Priority = pv := by
        have hle := v4 (by omega)
        rw [hpv] at hle
        have hge := hmid A (by omega) (by omega)
        omega
      have hPB : pv < (geti l (B - 1)).Priority := by
        have := u4 (by omega)
        rw [hpv] at this
        exact this
      have hneq : A < B - 1 := by
        rcases Nat.lt_or_ge A (B - 1) with h | h
        · exact h
        · have hbe : A = B - 1 := by omega
          rw [← hbe] at hPB
          omega
      have hlA : A < l.length := by omega
      have hlB : B - 1 < l.length := by omega
      have g1 : geti (lswap l A (B - 1)) (B - 1) = geti l A :=
        geti_lswap_fst l A (B - 1) hlA hlB
      have g2 : geti (lswap l A (B - 1)) A = geti l (B - 1) :=
        geti_lswap_snd l A (B - 1) hlA hlB (by omega)
      have g3 : ∀ k, k ≠ A → k ≠ B - 1 → geti (lswap l A (B - 1)) k = geti l k :=
        fun k hx1 hx2 => geti_lswap_other l A (B - 1) k hx1 hx2
      have hrec := protectLoop_spec lo hi a0 b0 pv fuel (lswap l A (B - 1)) (A + 1) (B - 1)
        (by omega) hloa (by omega) (by omega) (by omega) hb0hi
        (by rw [lswap_length]; exact hlen)
        (by rw [g3 lo (by omega) (by omega)]; exact hpv)
        ?_ ?_ ?_ l2 a2 b2 heq
      · obtain ⟨w1, w2, w3, w4, w5, w6, w7⟩ := hrec
        refine ⟨w1, by omega, by omega, ?_, w5, w6, w7⟩
        refine sameOutside_trans ?_ (sameOutside_mono w4 (by omega) (by omega))
        exact lswap_sameOutside l (by omega) (by omega) (by omega) (by omega)
      · intro i hx1 hx2
        by_cases hiA : i = A
        · rw [hiA, g2]
          exact hPB
        · rw [g3 i (by omega) (by omega)]
          by_cases hia : i < a
          · exact hIa i hx1 hia
          · have hlt := v3 i (by omega) (by omega)
            rw [hpv] at hlt
            exact hlt
      · intro i hx1 hx2
        rw [g3 i (by omega) (by omega)]
        exact hmid i (by omega) (by omega)
      · intro i hx1 hx2
        by_cases hiB : i = B - 1
        · rw [hiB, g1]
          exact hPA
        · rw [g3 i (by omega) (by omega)]
          by_cases hib : b ≤ i
          · exact hIb i hib hx2
          · have hni := u3 i (by omega) (by omega)
            rw [hpv] at hni
            have hge := hmid i (by omega) (by omega)
            omega

/-! ### doPivot: the duplicate-shifting block -/

theorem pivotDupShift_spec (l : List AutocompleteItem) (lo m hi b c a0 : Nat) (pv : Int)
    (hm : m = (lo + hi) / 2) (hbc : b = c) (hloa : lo < a0) (ha0b : a0 ≤ b)
    (hchi : c ≤ hi - 1) (hlen : hi ≤ l.length)
    (hprot : 5 ≤ hi - c) (hdup : hi - c < (hi - lo) / 4) (h12 : 12 < hi - lo)
    (hpv : (geti l lo).Priority = pv)
    (hIa : ∀ i, lo < i → i < a0 → pv < (geti l i).Priority)
    (hzone2 : ∀ i, a0 ≤ i → i < b → pv ≤ (geti l i).Priority)
    (hzone3 : ∀ i, c ≤ i → i < hi - 1 → (geti l i).Priority < pv)
    (hhi1 : (geti l (hi - 1)).Priority ≤ pv) :
    ∀ l2 b2v c2v prot, pivotDupShift l lo m hi b c = (l2, b2v, c2v, prot) →
      a0 ≤ b2v ∧ b2v ≤ b ∧ c ≤ c2v ∧ c2v ≤ hi - 4 ∧
      l2.length = l.length ∧ SameOutside lo hi l l2 ∧
      (geti l2 lo).Priority = pv ∧
      (∀ i, lo < i → i < a0 → pv < (geti l2 i).Priority) ∧
      (∀ i, a0 ≤ i → i < b2v → pv ≤ (geti l2 i).Priority) ∧
      (∀ i, b2v ≤ i → i < c2v → (geti l2 i).Priority = pv) ∧
      (∀ i, c2v ≤ i → i < hi → (geti l2 i).Priority ≤ pv) := by
  intro l2 b2v c2v prot heq
  rw [pivotDupShift] at heq
  have han : 24 ≤ hi - lo := by omega
  have hblo : lo + 16 ≤ b := by omega
  have hmb : m + 2 ≤ b := by omega
  have hmlo : lo + 2 ≤ m := by omega
  have s3part : ∀ (L4 : List AutocompleteItem) (c2val b2 d2 : Nat),
      L4.length = l.length → SameOutside lo hi l L4 →
      (geti L4 lo).Priority = pv →
      (∀ i, lo < i → i < a0 → pv < (geti L4 i).Priority) →
      (∀ i, a0 ≤ i → i < b2 → pv ≤ (geti L4 i).Priority) →
      (∀ i, b2 ≤ i → i < c2val → (geti L4 i).Priority = pv) →
      (∀ i, c2val ≤ i → i < hi → (geti L4 i).Priority ≤ pv) →
      a0 ≤ b2 → b - 1 ≤ b2 → b2 ≤ b → c ≤ c2val → c2val ≤ hi - 4 →
      ∀ (l2x : List AutocompleteItem) (b2x c2x : Nat) (protx : Bool),
        ((if ¬ lessIdx L4 m lo = true then
            (lswap L4 (b2 - 1) m, b2 - 1, d2 + 1) else (L4, b2, d2)).1,
         (if ¬ lessIdx L4 m lo = true then
            (lswap L4 (b2 - 1) m, b2 - 1, d2 + 1) else (L4, b2, d2)).2.1,
         c2val,
         decide ((if ¬ lessIdx L4 m lo = true then
            (lswap L4 (b2 - 1) m, b2 - 1, d2 + 1) else (L4, b2, d2)).2.2 > 1)) =
          (l2x, b2x, c2x, protx) →
        a0 ≤ b2x ∧ b2x ≤ b ∧ c ≤ c2x ∧ c2x ≤ hi - 4 ∧
        l2x.length = l.length ∧ SameOutside lo hi l l2x ∧
        (geti l2x lo).Priority = pv ∧
        (∀ i, lo < i → i < a0 → pv < (geti l2x i).Priority) ∧
        (∀ i, a0 ≤ i → i < b2x → pv ≤ (geti l2x i).Priority) ∧
        (∀ i, b2x ≤ i → i < c2x → (geti l2x i).Priority = pv) ∧
        (∀ i, c2x ≤ i → i < hi → (geti l2x i).Priority ≤ pv) := by
    intro L4 c2val b2 d2 hlen4 hout4 hpv4 hIa4 hz2b hmidb htail4 hb2a0 hb2lb hb2b
      hcc2 hc2hi l2x b2x c2x protx heqx
    by_cases hq3 : lessIdx L4 m lo = true
    · rw [if_neg (not_not_intro hq3)] at heqx
      dsimp only at heqx
      injection heqx with hL hrest
      injection hrest with hbx hrest2
      injection hrest2 with hcx hprotx
      subst hL
      subst hbx
      subst hcx
      exact ⟨hb2a0, hb2b, hcc2, hc2hi, hlen4, hout4, hpv4, hIa4, hz2b, hmidb, htail4⟩
    · rw [if_pos hq3] at heqx
      dsimp only at heqx
      have hPmle : (geti L4 m).Priority ≤ pv := by
        have hx : ¬ ((geti L4 lo).Priority < (geti L4 m).Priority) :=
          fun hlt => hq3 (by simp [lessIdx]; omega)
        omega
      have hma0 : a0 ≤ m := by
        by_contra hcon
        have := hIa4 m (by omega) (by omega)
        omega
      have hmb2 : m < b2 := by omega
      have hmeq : (geti L4 m).Priority = pv := by
        have := hz2b m hma0 hmb2
        omega
      have hb21a0 : a0 ≤ b2 - 1 := by omega
      have hPb21 : pv ≤ (geti L4 (b2 - 1)).Priority := hz2b (b2 - 1) (by omega) (by omega)
      have j1 : geti (lswap L4 (b2 - 1) m) m = geti L4 (b2 - 1) :=
        geti_lswap_fst L4 (b2 - 1) m (by rw [hlen4]; omega) (by rw [hlen4]; omega)
      have j2 : geti (lswap L4 (b2 - 1) m) (b2 - 1) = geti L4 m := by
        by_cases hmeq2 : m = b2 - 1
        · rw [← hmeq2, lswap_self]
        · exact geti_lswap_snd L4 (b2 - 1) m (by rw [hlen4]; omega)
            (by rw [hlen4]; omega) hmeq2
      have j3 : ∀ k, k ≠ b2 - 1 → k ≠ m → geti (lswap L4 (b2 - 1) m) k = geti L4 k :=
        fun k hx1 hx2 => geti_lswap_other L4 (b2 - 1) m k hx1 hx2
      injection heqx with hL hrest
      injection hrest with hbx hrest2
      injection hrest2 with hcx hprotx
      subst hL
      subst hbx
      subst hcx
      refine ⟨by omega, by omega, hcc2, hc2hi, ?_, ?_, ?_, ?_, ?_, ?_, ?_⟩
      · rw [(lswap_perm L4 (b2 - 1) m).length_eq]
        exact hlen4
      · refine sameOutside_trans hout4 ?_
        exact lswap_sameOutside L4 (by omega) (by omega) (by omega) (by omega)
      · rw [j3 lo (by omega) (by omega)]
        exact hpv4
      · intro i h1 h2
        rw [j3 i (by omega) (by omega)]
        exact hIa4 i h1 h2
      · intro i h1 h2
        by_cases him : i = m
        · rw [him, j1]
          exact hPb21
        · rw [j3 i (by omega) him]
          exact hz2b i h1 (by omega)
      · intro i h1 h2
        by_cases hib : i = b2 - 1
        · rw [hib, j2]
          exact hmeq
        · rw [j3 i hib (by omega)]
          exact hmidb i (by omega) h2
      · intro i h1 h2
        rw [j3 i (by omega) (by omega)]
        exact htail4 i h1 h2
  by_cases hq1 : lessIdx l lo (hi - 1) = true
  · rw [if_neg (not_not_intro hq1)] at heq
    dsimp only at heq
    have hmid : ∀ i, b ≤ i → i < c → (geti l i).Priority = pv :=
      fun i h1 h2 => absurd h2 (by omega)
    have htail : ∀ i, c ≤ i → i < hi → (geti l i).Priority ≤ pv := by
      intro i h1 h2
      by_cases hih : i = hi - 1
      · rw [hih]
        exact hhi1
      · have := hzone3 i h1 (by omega)
        omega
    by_cases hq2 : lessIdx l (b - 1) lo = true
    · rw [if_neg (not_not_intro hq2)] at heq
      dsimp only at heq
      exact s3part l c b 0 rfl (sameOutside_refl _ _ _) hpv hIa hzone2 hmid htail
        ha0b (by omega) le_rfl (by omega) (by omega) l2 b2v c2v prot heq
    · rw [if_pos hq2] at heq
      dsimp only at heq
      have hPb1le : (geti l (b - 1)).Priority ≤ pv := by
        have hx : ¬ ((geti l lo).Priority < (geti l (b - 1)).Priority) :=
          fun hlt => hq2 (by simp [lessIdx]; omega)
        omega
      have hb1a0 : a0 ≤ b - 1 := by
        by_contra hcon
        have := hIa (b - 1) (by omega) (by omega)
        omega
      have hb1eq : (geti l (b - 1)).Priority = pv := by
        have := hzone2 (b - 1) hb1a0 (by omega)
        omega
      refine s3part l c (b - 1) (0 + 1) rfl (sameOutside_refl _ _ _) hpv hIa
        (fun i h1 h2 => hzone2 i h1 (by omega)) ?_ htail hb1a0 le_rfl (by omega)
        (by omega) (by omega) l2 b2v c2v prot heq
      intro i h1 h2
      have hib : i = b - 1 := by omega
      rw [hib]
      exact hb1eq
  · rw [if_pos hq1] at heq
    dsimp only at heq
    have hPhieq : (geti l (hi - 1)).Priority = pv := by
      have hx : ¬ ((geti l (hi - 1)).Priority < (geti l lo).Priority) :=
        fun hlt => hq1 (by simp [lessIdx]; omega)
      omega
    have hclen : c < l.length := by omega
    have hhilen : hi - 1 < l.length := by omega
    have k1 : geti (lswap l c (hi - 1)) (hi - 1) = geti l c :=
      geti_lswap_fst l c (hi - 1) hclen hhilen
    have k2 : geti (lswap l c (hi - 1)) c = geti l (hi - 1) :=
      geti_lswap_snd l c (hi - 1) hclen hhilen (by omega)
    have k3 : ∀ k, k ≠ c → k ≠ hi - 1 → geti (lswap l c (hi - 1)) k = geti l k :=
      fun k hx1 hx2 => geti_lswap_other l c (hi - 1) k hx1 hx2
    have hL4len : (lswap l c (hi - 1)).length = l.length := lswap_length l c (hi - 1)
    have hout4 : SameOutside lo hi l (lswap l c (hi - 1)) :=
      lswap_sameOutside l (by omega) (by omega) (by omega) (by omega)
    have hpv4 : (geti (lswap l c (hi - 1)) lo).Priority = pv := by
      rw [k3 lo (by omega) (by omega)]
      exact hpv
    have hIa4 : ∀ i, lo < i → i < a0 → pv < (geti (lswap l c (hi - 1)) i).Priority := by
      intro i h1 h2
      rw [k3 i (by omega) (by omega)]
      exact hIa i h1 h2
    have hz24 : ∀ i, a0 ≤ i → i < b → pv ≤ (geti (lswap l c (hi - 1)) i).Priority := by
      intro i h1 h2
      rw [k3 i (by omega) (by omega)]
      exact hzone2 i h1 h2
    have hmid4 : ∀ i, b ≤ i → i < c + 1 → (geti (lswap l c (hi - 1)) i).Priority = pv := by
      intro i h1 h2
      have hic : i = c := by omega
      rw [hic, k2]
      exact hPhieq
    have htail4 : ∀ i, c + 1 ≤ i → i < hi →
        (geti (lswap l c (hi - 1)) i).Priority ≤ pv := by
      intro i h1 h2
      by_cases hih : i = hi - 1
      · rw [hih, k1]
        have := hzone3 c (by omega) (by omega)
        omega
      · rw [k3 i (by omega) (by omega)]
        have := hzone3 i (by omega) (by omega)
        omega
    by_cases hq2 : lessIdx (lswap l c (hi - 1)) (b - 1) lo = true
    · rw [if_neg (not_not_intro hq2)] at heq
      dsimp only at heq
      exact s3part (lswap l c (hi - 1)) (c + 1) b 1 hL4len hout4 hpv4 hIa4 hz24 hmid4
        htail4 ha0b (by omega) le_rfl (by omega) (by omega) l2 b2v c2v prot heq
    · rw [if_pos hq2] at heq
      dsimp only at heq
      have hPb1le : (geti (lswap l c (hi - 1)) (b - 1)).Priority ≤ pv := by
        have hx : ¬ ((geti (lswap l c (hi - 1)) lo).Priority <
            (geti (lswap l c (hi - 1)) (b - 1)).Priority) :=
          fun hlt => hq2 (by simp [lessIdx]; omega)
        rw [hpv4] at hx
        omega
      have hb1a0 : a0 ≤ b - 1 := by
        by_contra hcon
        have := hIa4 (b - 1) (by omega) (by omega)
        omega
      have hb1eq : (geti (lswap l c (hi - 1)) (b - 1)).Priority = pv := by
        have := hz24 (b - 1) hb1a0 (by omega)
        omega
      refine s3part (lswap l c (hi - 1)) (c + 1) (b - 1) (1 + 1) hL4len hout4 hpv4 hIa4
        (fun i h1 h2 => hz24 i h1 (by omega)) ?_ htail4 hb1a0 le_rfl (by omega)
        (by omega) (by omega) l2 b2v c2v prot heq
      intro i h1 h2
      by_cases hib : i = b - 1
      · rw [hib]
        exact hb1eq
      · exact hmid4 i (by omega) h2

/-! ### doPivot: three-way partition correctness -/

theorem doPivot_correct (l : List AutocompleteItem) (lo hi : Nat)
    (h12 : 12 < hi - lo) (hlen : hi ≤ l.length) :
    ∀ lf mlo mhi, doPivot l lo hi = (lf, mlo, mhi) →
      lf.length = l.length ∧ SameOutside lo hi l lf ∧
      lo ≤ mlo ∧ mlo < mhi ∧ mhi ≤ hi ∧
      ∃ pv : Int,
        (∀ i, lo ≤ i → i < mlo → pv ≤ (geti lf i).Priority) ∧
        (∀ i, mlo ≤ i → i < mhi → (geti lf i).Priority = pv) ∧
        (∀ i, mhi ≤ i → i < hi → (geti lf i).Priority ≤ pv) := by
  intro lf mlo mhi heq
  rw [doPivot] at heq
  set L2 := pivotMedians l lo hi ((lo + hi) / 2) with hL2
  have hmed_out : SameOutside lo hi l L2 := by
    rw [hL2]
    exact pivotMedians_sameOutside l lo hi ((lo + hi) / 2) rfl h12
  have hmed_len : L2.length = l.length := hmed_out.1
  have hmed_ge : (geti L2 (hi - 1)).Priority ≤ (geti L2 lo).Priority := by
    rw [hL2]
    exact pivotMedians_pivotGe l lo hi ((lo + hi) / 2) rfl h12 hlen
  have final : ∀ (Z : List AutocompleteItem) (bf c2f : Nat),
      Z.length = l.length → SameOutside lo hi l Z →
      (geti Z lo).Priority = (geti L2 lo).Priority →
      lo < bf → bf ≤ c2f → c2f ≤ hi →
      (∀ i, lo < i → i < bf → (geti L2 lo).Priority ≤ (geti Z i).Priority) →
      (∀ i, bf ≤ i → i < c2f → (geti Z i).Priority = (geti L2 lo).Priority) →
      (∀ i, c2f ≤ i → i < hi → (geti Z i).Priority ≤ (geti L2 lo).Priority) →
      ∀ lfx mlox mhix, (lswap Z lo (bf - 1), bf - 1, c2f) = (lfx, mlox, mhix) →
        lfx.length = l.length ∧ SameOutside lo hi l lfx ∧
        lo ≤ mlox ∧ mlox < mhix ∧ mhix ≤ hi ∧
        ∃ pv : Int,
          (∀ i, lo ≤ i → i < mlox → pv ≤ (geti lfx i).Priority) ∧
          (∀ i, mlox ≤ i → i < mhix → (geti lfx i).Priority = pv) ∧
          (∀ i, mhix ≤ i → i < hi → (geti lfx i).Priority ≤ pv) := by
    intro Z bf c2f hZlen hZout hZpv hbf1 hbfc hc2hi hZleft hZmid hZtail
      lfx mlox mhix heqx
    injection heqx with hL hrest
    injection hrest with hmlo2 hmhi2
    subst hL
    subst hmlo2
    subst hmhi2
    have hloZ : lo < Z.length := by omega
    have hbfZ : bf - 1 < Z.length := by omega
    have w1 : geti (lswap Z lo (bf - 1)) (bf - 1) = geti Z lo :=
      geti_lswap_fst Z lo (bf - 1) hloZ hbfZ
    have w2 : geti (lswap Z lo (bf - 1)) lo = geti Z (bf - 1) := by
      by_cases hbl : bf - 1 = lo
      · rw [hbl, lswap_self]
      · exact geti_lswap_snd Z lo (bf - 1) hloZ hbfZ hbl
    have w3 : ∀ k, k ≠ lo → k ≠ bf - 1 → geti (lswap Z lo (bf - 1)) k = geti Z k :=
      fun k hx1 hx2 => geti_lswap_other Z lo (bf - 1) k hx1 hx2
    refine ⟨?_, ?_, by omega, by omega, hc2hi, (geti L2 lo).Priority, ?_, ?_, ?_⟩
    · rw [(lswap_perm Z lo (bf - 1)).length_eq]
      exact hZlen
    · exact sameOutside_trans hZout
        (lswap_sameOutside Z le_rfl (by omega) (by omega) (by omega))
    · intro i h1 h2
      by_cases hil : i = lo
      · rw [hil, w2]
        exact hZleft (bf - 1) (by omega) (by omega)
      · rw [w3 i hil (by omega)]
        exact hZleft i (by omega) (by omega)
    · intro i h1 h2
      by_cases hib : i = bf - 1
      · rw [hib, w1]
        exact hZpv
      · rw [w3 i (by omega) hib]
        exact hZmid i (by omega) h2
    · intro i h1 h2
      rw [w3 i (by omega) (by omega)]
      exact hZtail i h1 h2
  set A := scanAGo L2 lo (hi - 1) (hi - 1 - (lo + 1)) (lo + 1) with hA
  have hsA := scanAGo_spec L2 lo (hi - 1) (hi - 1 - (lo + 1)) (lo + 1) (by omega) (by omega)
  rw [← hA] at hsA
  obtain ⟨a1, a2, a3, a4⟩ := hsA
  set R := partLoop lo (hi - 1 - A + 1) L2 A (hi - 1) with hR
  have hpart := partLoop_spec lo hi A ((geti L2 lo).Priority) (hi - 1 - A + 1) L2 A
    (hi - 1) (by omega) (by omega) le_rfl a2 le_rfl (by rw [hmed_len]; exact hlen) rfl
    (fun i hx1 hx2 => absurd hx2 (by omega))
    (fun i hx1 hx2 => absurd hx2 (by omega))
    R.1 R.2.1 R.2.2 (by rw [← hR])
  obtain ⟨p1, p2, p3, p4, p5, p6, p7⟩ := hpart
  have hlenR : R.1.length = l.length := by
    rw [p4.1]
    exact hmed_len
  have houtR : SameOutside lo hi l R.1 :=
    sameOutside_trans hmed_out (sameOutside_mono p4 (by omega) (by omega))
  have hIaR : ∀ i, lo < i → i < A → (geti L2 lo).Priority < (geti R.1 i).Priority := by
    intro i h1 h2
    rw [p4.2 i (Or.inl h2)]
    exact a3 i (by omega) h2
  have hhi1R : (geti R.1 (hi - 1)).Priority ≤ (geti L2 lo).Priority := by
    rw [p4.2 (hi - 1) (Or.inr le_rfl)]
    exact hmed_ge
  have htailR : ∀ i, R.2.2 ≤ i → i < hi → (geti R.1 i).Priority ≤ (geti L2 lo).Priority := by
    intro i h1 h2
    by_cases hih : i = hi - 1
    · rw [hih]
      exact hhi1R
    · have := p7 i h1 (by omega)
      omega
  by_cases hdups : ¬ (decide (hi - R.2.2 < 5) = true) ∧ hi - R.2.2 < (hi - lo) / 4
  · rw [if_pos hdups] at heq
    set X := pivotDupShift R.1 lo ((lo + hi) / 2) hi R.2.1 R.2.2 with hX
    have hprot5 : 5 ≤ hi - R.2.2 := by
      have := hdups.1
      simp at this
      omega
    have hdupspec := pivotDupShift_spec R.1 lo ((lo + hi) / 2) hi R.2.1 R.2.2 A
      ((geti L2 lo).Priority) rfl p1 (by omega) p2 p3 (by rw [hlenR]; exact hlen)
      hprot5 hdups.2 h12 p5 hIaR p6 p7 hhi1R X.1 X.2.1 X.2.2.1 X.2.2.2 (by rw [← hX])
    obtain ⟨d1, d2, d3, d4, d5, d6, d7, d8, d9, d10, d11⟩ := hdupspec
    have hlenX : X.1.length = l.length := by
      rw [d5]
      exact hlenR
    have houtX : SameOutside lo hi l X.1 := sameOutside_trans houtR d6
    by_cases hprotb : X.2.2.2 = true
    · rw [if_pos hprotb] at heq
      set Y := protectLoop lo (X.2.1 - A + 1) X.1 A X.2.1 with hY
      have hprotspec := protectLoop_spec lo hi A X.2.2.1 ((geti L2 lo).Priority)
        (X.2.1 - A + 1) X.1 A X.2.1 (by omega) (by omega) le_rfl d1 (by omega)
        (by omega) (by rw [hlenX]; exact hlen) d7 d8 d9 d10
        Y.1 Y.2.1 Y.2.2 (by rw [← hY])
      obtain ⟨e1, e2, e3, e4, e5, e6, e7⟩ := hprotspec
      refine final Y.1 Y.2.2 X.2.2.1 ?_ ?_ e5 (by omega) (by omega) (by omega) ?_ e7 ?_
        lf mlo mhi heq
      · rw [e4.1]
        exact hlenX
      · exact sameOutside_trans houtX (sameOutside_mono e4 (by omega) (by omega))
      · intro i h1 h2
        exact le_of_lt (e6 i h1 (by omega))
      · intro i h1 h2
        rw [e4.2 i (Or.inr (by omega))]
        exact d11 i (by omega) h2
    · rw [if_neg hprotb] at heq
      refine final X.1 X.2.1 X.2.2.1 hlenX houtX d7 (by omega) (by omega) (by omega)
        ?_ d10 d11 lf mlo mhi heq
      intro i h1 h2
      by_cases hiA : i < A
      · exact le_of_lt (d8 i h1 hiA)
      · exact d9 i (by omega) h2
  · rw [if_neg hdups] at heq
    dsimp only at heq
    by_cases hprotb : decide (hi - R.2.2 < 5) = true
    · rw [if_pos hprotb] at heq
      set Y := protectLoop lo (R.2.1 - A + 1) R.1 A R.2.1 with hY
      have hprotspec := protectLoop_spec lo hi A R.2.2 ((geti L2 lo).Priority)
        (R.2.1 - A + 1) R.1 A R.2.1 (by omega) (by omega) le_rfl p2 (by omega)
        (by omega) (by rw [hlenR]; exact hlen) p5 hIaR p6
        (fun i hx1 hx2 => absurd hx2 (by omega))
        Y.1 Y.2.1 Y.2.2 (by rw [← hY])
      obtain ⟨e1, e2, e3, e4, e5, e6, e7⟩ := hprotspec
      refine final Y.1 Y.2.2 R.2.2 ?_ ?_ e5 (by omega) (by omega) (by omega) ?_ e7 ?_
        lf mlo mhi heq
      · rw [e4.1]
        exact hlenR
      · exact sameOutside_trans houtR (sameOutside_mono e4 (by omega) (by omega))
      · intro i h1 h2
        exact le_of_lt (e6 i h1 (by omega))
      · intro i h1 h2
        rw [e4.2 i (Or.inr (by omega))]
        exact htailR i (by omega) h2
    · rw [if_neg hprotb] at heq
      refine final R.1 R.2.1 R.2.2 hlenR houtR p5 (by omega) (by omega) (by omega)
        ?_ (fun i hx1 hx2 => absurd hx2 (by omega)) htailR lf mlo mhi heq
      intro i h1 h2
      by_cases hiA : i < A
      · exact le_of_lt (hIaR i h1 hiA)
      · exact p6 i (by omega) h2

/-! ### quickSort_func sorts every range; sort.Slice sorts the whole slice -/

theorem quickSortFunc_correct :
    ∀ (fuel : Nat) (l : List AutocompleteItem) (a b depth : Nat), depth < fuel →
      b ≤ l.length →
      SegSorted (quickSortFunc fuel l a b depth) a b ∧
      SameOutside a b l (quickSortFunc fuel l a b depth)
  | 0, l, a, b, depth, hfu, hlen => absurd hfu (by omega)
  | fuel + 1, l, a, b, depth, hfu, hlen => by
    rw [quickSortFunc]
    dsimp only
    by_cases h12 : b - a > 12
    · rw [if_pos h12]
      by_cases hd0 : depth = 0
      · rw [if_pos hd0]
        exact ⟨heapSortFunc_sortedSeg l a b (by omega) hlen,
          heapSortFunc_sameOutside l a b (by omega)⟩
      · rw [if_neg hd0]
        set D := doPivot l a b with hD
        have hdp := doPivot_correct l a b (by omega) hlen D.1 D.2.1 D.2.2 (by rw [← hD])
        obtain ⟨q1, q2, q3, q4, q5, pv, z1, z2, z3⟩ := hdp
        have hdperm : D.1.Perm l := by
          rw [hD]
          exact doPivot_perm l a b
        have glue : ∀ lfin : List AutocompleteItem,
            SegSorted lfin a D.2.1 → SegSorted lfin D.2.2 b →
            (∀ i, a ≤ i → i < D.2.1 → pv ≤ (geti lfin i).Priority) →
            (∀ i, D.2.1 ≤ i → i < D.2.2 → (geti lfin i).Priority = pv) →
            (∀ i, D.2.2 ≤ i → i < b → (geti lfin i).Priority ≤ pv) →
            SegSorted lfin a b := by
          intro lfin hs1 hs2 hz1 hz2 hz3 i j h1 h2 h3
          by_cases hi1 : i < D.2.1
          · by_cases hj1 : j < D.2.1
            · exact hs1 i j h1 h2 hj1
            · by_cases hj2 : j < D.2.2
              · have hx1 := hz2 j (by omega) hj2
                have hx2 := hz1 i h1 hi1
                omega
              · have hx1 := hz3 j (by omega) h3
                have hx2 := hz1 i h1 hi1
                omega
          · by_cases hi2 : i < D.2.2
            · by_cases hj2 : j < D.2.2
              · have hx1 := hz2 i (by omega) hi2
                have hx2 := hz2 j (by omega) hj2
                omega
              · have hx1 := hz2 i (by omega) hi2
                have hx2 := hz3 j (by omega) h3
                omega
            · exact hs2 i j (by omega) h2 h3
        split
        · next hside =>
          obtain ⟨hsort1, hout1⟩ := quickSortFunc_correct fuel D.1 a D.2.1 (depth - 1)
            (by omega) (by rw [q1]; omega)
          obtain ⟨hsort2, hout2⟩ := quickSortFunc_correct fuel
            (quickSortFunc fuel D.1 a D.2.1 (depth - 1)) D.2.2 b (depth - 1)
            (by omega) (by rw [hout1.1, q1]; omega)
          have hpermLS : (quickSortFunc fuel D.1 a D.2.1 (depth - 1)).Perm D.1 :=
            quickSortFunc_perm fuel D.1 a D.2.1 (depth - 1)
          have hz1LS := segGe_preserved hpermLS hout1 (by rw [q1]; omega) z1
          have hz2LS : ∀ i, D.2.1 ≤ i → i < D.2.2 →
              (geti (quickSortFunc fuel D.1 a D.2.1 (depth - 1)) i).Priority = pv := by
            intro i hx1 hx2
            rw [hout1.2 i (Or.inr hx1)]
            exact z2 i hx1 hx2
          have hz3LS : ∀ i, D.2.2 ≤ i → i < b →
              (geti (quickSortFunc fuel D.1 a D.2.1 (depth - 1)) i).Priority ≤ pv := by
            intro i hx1 hx2
            rw [hout1.2 i (Or.inr (by omega))]
            exact z3 i hx1 hx2
          have hperm2 : (quickSortFunc fuel (quickSortFunc fuel D.1 a D.2.1 (depth - 1))
              D.2.2 b (depth - 1)).Perm (quickSortFunc fuel D.1 a D.2.1 (depth - 1)) :=
            quickSortFunc_perm fuel _ D.2.2 b (depth - 1)
          constructor
          · refine glue _ ?_ hsort2 ?_ ?_ ?_
            · intro i j hx1 hx2 hx3
              rw [hout2.2 i (Or.inl (by omega)), hout2.2 j (Or.inl (by omega))]
              exact hsort1 i j hx1 hx2 hx3
            · intro i hx1 hx2
              rw [hout2.2 i (Or.inl (by omega))]
              exact hz1LS i hx1 hx2
            · intro i hx1 hx2
              rw [hout2.2 i (Or.inl (by omega))]
              exact hz2LS i hx1 hx2
            · exact segLe_preserved hperm2 hout2 (by rw [hout1.1, q1]; omega) hz3LS
          · refine sameOutside_trans q2 (sameOutside_trans
              (sameOutside_mono hout1 le_rfl (by omega))
              (sameOutside_mono hout2 (by omega) le_rfl))
        · next hside =>
          obtain ⟨hsort1, hout1⟩ := quickSortFunc_correct fuel D.1 D.2.2 b (depth - 1)
            (by omega) (by rw [q1]; omega)
          obtain ⟨hsort2, hout2⟩ := quickSortFunc_correct fuel
            (quickSortFunc fuel D.1 D.2.2 b (depth - 1)) a D.2.1 (depth - 1)
            (by omega) (by rw [hout1.1, q1]; omega)
          have hpermLS : (quickSortFunc fuel D.1 D.2.2 b (depth - 1)).Perm D.1 :=
            quickSortFunc_perm fuel D.1 D.2.2 b (depth - 1)
          have hz3LS := segLe_preserved hpermLS hout1 (by rw [q1]; omega) z3
          have hz1LS : ∀ i, a ≤ i → i < D.2.1 →
              pv ≤ (geti (quickSortFunc fuel D.1 D.2.2 b (depth - 1)) i).Priority := by
            intro i hx1 hx2
            rw [hout1.2 i (Or.inl (by omega))]
            exact z1 i hx1 hx2
          have hz2LS : ∀ i, D.2.1 ≤ i → i < D.2.2 →
              (geti (quickSortFunc fuel D.1 D.2.2 b (depth - 1)) i).Priority = pv := by
            intro i hx1 hx2
            rw [hout1.2 i (Or.inl hx2)]
            exact z2 i hx1 hx2
          have hperm2 : (quickSortFunc fuel (quickSortFunc fuel D.1 D.2.2 b (depth - 1))
              a D.2.1 (depth - 1)).Perm (quickSortFunc fuel D.1 D.2.2 b (depth - 1)) :=
            quickSortFunc_perm fuel _ a D.2.1 (depth - 1)
          constructor
          · refine glue _ hsort2 ?_ ?_ ?_ ?_
            · intro i j hx1 hx2 hx3
              rw [hout2.2 i (Or.inr (by omega)), hout2.2 j (Or.inr (by omega))]
              exact hsort1 i j hx1 hx2 hx3
            · exact segGe_preserved hperm2 hout2 (by rw [hout1.1, q1]; omega) hz1LS
            · intro i hx1 hx2
              rw [hout2.2 i (Or.inr hx1)]
              exact hz2LS i hx1 hx2
            · intro i hx1 hx2
              rw [hout2.2 i (Or.inr (by omega))]
              exact hz3LS i hx1 hx2
          · refine sameOutside_trans q2 (sameOutside_trans
              (sameOutside_mono hout1 (by omega) le_rfl)
              (sameOutside_mono hout2 le_rfl (by omega)))
    · rw [if_neg h12]
      by_cases h1b : b - a > 1
      · rw [if_pos h1b]
        have hslen : (shellPass l a b).length = l.length := (shellPass_perm l a b).length_eq
        refine ⟨insertionSortFunc_sortedSeg (shellPass l a b) a b
          (by rw [hslen]; exact hlen), ?_⟩
        exact sameOutside_trans (shellPass_sameOutside l a b)
          (insertionSortFunc_sameOutside (shellPass l a b) a b)
      · rw [if_neg h1b]
        refine ⟨?_, sameOutside_refl a b l⟩
        intro i j h1 h2 h3
        have hij : i = j := by omega
        subst hij
        exact le_refl _

theorem pairwise_of_segSorted (l2 : List AutocompleteItem)
    (h : SegSorted l2 0 l2.length) : l2.Pairwise gePrio := by
  rw [List.pairwise_iff_getElem]
  intro i j hi hj hij
  have hx := h i j (by omega) (by omega) hj
  rwa [geti_eq_getElem l2 i hi, geti_eq_getElem l2 j hj] at hx

theorem sortSliceByPriority_sorted (l : List AutocompleteItem) :
    (sortSliceByPriority l).Pairwise gePrio := by
  apply pairwise_of_segSorted
  have h := quickSortFunc_correct (maxDepthGo l.length + l.length + 2) l 0 l.length
    (maxDepthGo l.length) (by omega) le_rfl
  rw [sortSliceByPriority_length l]
  exact h.1

/-! ## Helper facts about the handler building blocks -/

theorem SetAutocompleteList_text (e : InputBar) (items : List AutocompleteItem)
    (r : InputBar × List AutocompleteItem) (h : SetAutocompleteList e items = some r) :
    r.1.text = e.text ∧ r.1.changedPresent = e.changedPresent := by
  unfold SetAutocompleteList at h
  split at h
  · exact absurd h (by simp)
  · simp only [Option.some.injEq] at h
    subst h
    exact ⟨rfl, rfl⟩

theorem Autocomplete_text (e : InputBar) (r : InputBar × Bool)
    (h : Autocomplete e = some r) :
    r.1.text = e.text ∧ r.1.changedPresent = e.changedPresent := by
  unfold Autocomplete at h
  split at h
  · simp only [Option.some.injEq] at h
    subst h
    exact ⟨rfl, rfl⟩
  · split at h
    · exact absurd h (by simp)
    · dsimp only at h
      split at h
      · simp only [Option.some.injEq] at h
        subst h
        exact ⟨rfl, rfl⟩
      · split at h
        · simp only [Option.some.injEq] at h
          subst h
          exact ⟨rfl, rfl⟩
        · split at h
          · exact absurd h (by simp)
          · next e2 _ heq =>
            simp only [Option.some.injEq] at h
            subst h
            exact ⟨(SetAutocompleteList_text _ _ _ heq).1,
              (SetAutocompleteList_text _ _ _ heq).2⟩

theorem Autocomplete_noFunc (e : InputBar) (hf : e.autocompleteFunc = none) :
    Autocomplete e = some (e, false) := by
  simp [Autocomplete, hf]

theorem Autocomplete_nilList (e : InputBar) (f : String → Nat → List AutocompleteItem)
    (hf : e.autocompleteFunc = some f) (hl : e.autocompleteList = none) :
    Autocomplete e = none := by
  simp [Autocomplete, hf, hl]

theorem Autocomplete_run (e : InputBar) (f : String → Nat → List AutocompleteItem)
    (lm : ListModel) (hf : e.autocompleteFunc = some f)
    (hl : e.autocompleteList = some lm) :
    Autocomplete e =
      if e.text = "" then some ({ e with autocompleteList := some ⟨[], 0⟩ }, false)
      else if f e.text 0 = [] then
        some ({ e with autocompleteList := some ⟨[], 0⟩ }, true)
      else
        some ({ e with autocompleteList := some (rankedListModel (f e.text 0)) }, true)
    := by
  simp only [Autocomplete, SetAutocompleteList, hf, hl, rankedListModel]

theorem finishInvoke_of_eq (e1 : InputBar) (cur : String) (h : e1.text = cur) :
    finishInvoke e1 cur = some (e1, 0, 0) := by
  simp [finishInvoke, h]

theorem finishInvoke_some (e1 : InputBar) (cur : String) (r : InputBar × Nat × Nat)
    (h : finishInvoke e1 cur = some r) :
    r.1.text = e1.text ∧ r.1.changedPresent = e1.changedPresent ∧
    r.2.1 = (if e1.text = cur then 0 else if e1.changedPresent then 1 else 0) ∧
    r.2.2 ≤ 1 ∧ (e1.text = cur → r = (e1, 0, 0)) := by
  unfold finishInvoke at h
  split at h
  · next heq =>
    simp only [Option.some.injEq] at h
    subst h
    simp [heq]
  · next hne =>
    split at h
    · exact absurd h (by simp)
    · next e2 pc heq2 =>
      simp only [Option.some.injEq] at h
      subst h
      have ht := Autocomplete_text _ _ heq2
      refine ⟨ht.1, ht.2, by simp [hne], ?_, fun hcontra => absurd hcontra hne⟩
      cases pc <;> simp

theorem finishInvoke_changed_iff (e1 : InputBar) (cur : String) (r : InputBar × Nat × Nat)
    (h : finishInvoke e1 cur = some r) :
    r.2.1 ≤ 1 ∧ (r.2.1 = 1 ↔ e1.changedPresent = true ∧ e1.text ≠ cur) := by
  have hf := finishInvoke_some _ _ _ h
  rw [hf.2.2.1]
  constructor
  · split
    · simp
    · split <;> simp
  · split
    · next heq => simp [heq]
    · next hne =>
      split
      · next hcp => simp [hcp, hne]
      · next hcp => simp [hcp]

theorem handleInput_noList (strip : String → String) (e : InputBar) (ev : Key)
    (hal : e.autocompleteList = none) :
    handleInput strip e ev =
      finishInvoke { e with text := textAreaHandle e.text ev } e.text := by
  simp only [handleInput, hal]

theorem handleInput_rune (strip : String → String) (e : InputBar) (lm : ListModel)
    (c : Char) (hal : e.autocompleteList = some lm) :
    handleInput strip e (.rune c) =
      finishInvoke { e with text := textAreaHandle e.text (.rune c) } e.text := by
  simp only [handleInput, hal]

theorem handleInput_other (strip : String → String) (e : InputBar) (lm : ListModel)
    (hal : e.autocompleteList = some lm) :
    handleInput strip e .other =
      finishInvoke { e with text := textAreaHandle e.text .other } e.text := by
  simp only [handleInput, hal]

theorem handleInput_escape (strip : String → String) (e : InputBar) (lm : ListModel)
    (hal : e.autocompleteList = some lm) :
    handleInput strip e .escape = some ({ e with autocompleteList := none }, 0, 0) := by
  simp only [handleInput, hal]
  exact finishInvoke_of_eq _ _ rfl

theorem handleInput_enter (strip : String → String) (e : InputBar) (lm : ListModel)
    (hal : e.autocompleteList = some lm)
    (hrange : lm.currentItem < lm.items.length) :
    handleInput strip e .enter =
      finishInvoke { e with
        text := (lm.items.getD lm.currentItem ("", "")).1
        autocompleteList := some ⟨[], 0⟩ } e.text := by
  simp only [handleInput, hal]
  rw [if_pos hrange]
  rfl

theorem handleInput_enter_oob (strip : String → String) (e : InputBar) (lm : ListModel)
    (hal : e.autocompleteList = some lm)
    (hrange : ¬ lm.currentItem < lm.items.length) :
    handleInput strip e .enter = none := by
  simp only [handleInput, hal]
  rw [if_neg hrange]

theorem nav_branch_zeros (strip : String → String)
    (hs : ∀ s, strip (strip s) = strip s) (e : InputBar) (lm : ListModel) (j : Nat) :
    ∃ e1 : InputBar,
      (if j = lm.currentItem then
        finishInvoke { e with autocompleteList := some { lm with currentItem := j } }
          e.text
      else
        match e.autocompleted with
        | some f =>
          if f (strip (lm.items.getD j ("", "")).1) j then
            finishInvoke { e with autocompleteList := none } e.text
          else
            finishInvoke
              { e with autocompleteList := some { lm with currentItem := j } } e.text
        | none =>
          finishInvoke { e with
            text := strip (lm.items.getD j ("", "")).1
            autocompleteList := some { lm with currentItem := j } }
            (strip (strip (lm.items.getD j ("", "")).1))) = some (e1, 0, 0) ∧
      e1.changedPresent = e.changedPresent ∧
      e1.autocompleteFunc = e.autocompleteFunc := by
  by_cases hj : j = lm.currentItem
  · rw [if_pos hj]
    exact ⟨_, finishInvoke_of_eq _ _ rfl, rfl, rfl⟩
  · rw [if_neg hj]
    cases hac : e.autocompleted with
    | some f =>
      simp only [hac]
      by_cases hb : f (strip (lm.items.getD j ("", "")).1) j = true
      · rw [if_pos hb]
        exact ⟨_, finishInvoke_of_eq _ _ rfl, rfl, rfl⟩
      · rw [if_neg hb]
        exact ⟨_, finishInvoke_of_eq _ _ rfl, rfl, rfl⟩
    | none =>
      simp only [hac]
      exact ⟨_, finishInvoke_of_eq _ _ (hs _).symm, rfl, rfl⟩

theorem handleInput_nav (strip : String → String)
    (hs : ∀ s, strip (strip s) = strip s) (e : InputBar) (lm : ListModel) (ev : Key)
    (hal : e.autocompleteList = some lm) (hnav : isNavKey ev = true) :
    ∃ e1 : InputBar, handleInput strip e ev = some (e1, 0, 0) ∧
      e1.changedPresent = e.changedPresent ∧
      e1.autocompleteFunc = e.autocompleteFunc := by
  cases ev
  case rune c => simp [isNavKey] at hnav
  case enter => simp [isNavKey] at hnav
  case escape => simp [isNavKey] at hnav
  case other => simp [isNavKey] at hnav
  all_goals
    simp only [handleInput, hal]
    by_cases hlen : lm.items.length = 0
    · rw [if_pos hlen]
      exact ⟨e, finishInvoke_of_eq _ _ rfl, rfl, rfl⟩
    · rw [if_neg hlen]
      exact nav_branch_zeros strip hs e lm _

theorem handleInput_master (strip : String → String)
    (hs : ∀ s, strip (strip s) = strip s) (e : InputBar) (ev : Key)
    (r : InputBar × Nat × Nat) (h : handleInput strip e ev = some r) :
    r.1.changedPresent = e.changedPresent ∧ r.2.1 ≤ 1 ∧ r.2.2 ≤ 1 ∧
    (r.1.text = e.text → r.2.1 = 0 ∧ r.2.2 = 0) ∧
    (isNavKey ev = true → e.autocompleteList ≠ none → r.2.1 = 0 ∧ r.2.2 = 0) ∧
    (¬ (isNavKey ev = true ∧ e.autocompleteList ≠ none) →
      (r.2.1 = 1 ↔ e.changedPresent = true ∧ r.1.text ≠ e.text)) := by
  cases hal : e.autocompleteList with
  | none =>
    rw [handleInput_noList strip e ev hal] at h
    have hf := finishInvoke_some _ _ _ h
    have hiff := finishInvoke_changed_iff _ _ _ h
    refine ⟨hf.2.1, hiff.1, hf.2.2.2.1, ?_, ?_, ?_⟩
    · intro ht
      have heq : ({ e with text := textAreaHandle e.text ev } : InputBar).text =
          e.text := by
        rw [← hf.1]
        exact ht
      rw [hf.2.2.2.2 heq]
      exact ⟨rfl, rfl⟩
    · intro _ hcontra
      exact absurd rfl hcontra
    · intro _
      rw [hiff.2, ← hf.1]
  | some lm =>
    cases ev with
    | escape =>
      rw [handleInput_escape strip e lm hal] at h
      simp only [Option.some.injEq] at h
      subst h
      refine ⟨rfl, by simp, by simp, fun _ => ⟨rfl, rfl⟩, ?_, ?_⟩
      · intro hfalse _
        simp [isNavKey] at hfalse
      · intro _
        simp
    | enter =>
      by_cases hrange : lm.currentItem < lm.items.length
      · rw [handleInput_enter strip e lm hal hrange] at h
        have hf := finishInvoke_some _ _ _ h
        have hiff := finishInvoke_changed_iff _ _ _ h
        refine ⟨hf.2.1, hiff.1, hf.2.2.2.1, ?_, ?_, ?_⟩
        · intro ht
          have heq : ({ e with
              text := (lm.items.getD lm.currentItem ("", "")).1
              autocompleteList := some ⟨[], 0⟩ } : InputBar).text = e.text := by
            rw [← hf.1]
            exact ht
          rw [hf.2.2.2.2 heq]
          exact ⟨rfl, rfl⟩
        · intro hfalse _
          simp [isNavKey] at hfalse
        · intro _
          rw [hiff.2, ← hf.1]
      · rw [handleInput_enter_oob strip e lm hal hrange] at h
        exact absurd h (by simp)
    | rune c =>
      rw [handleInput_rune strip e lm c hal] at h
      have hf := finishInvoke_some _ _ _ h
      have hiff := finishInvoke_changed_iff _ _ _ h
      refine ⟨hf.2.1, hiff.1, hf.2.2.2.1, ?_, ?_, ?_⟩
      · intro ht
        have heq : ({ e with text := textAreaHandle e.text (.rune c) } : InputBar).text =
            e.text := by
          rw [← hf.1]
          exact ht
        rw [hf.2.2.2.2 heq]
        exact ⟨rfl, rfl⟩
      · intro hfalse _
        simp [isNavKey] at hfalse
      · intro _
        rw [hiff.2, ← hf.1]
    | other =>
      rw [handleInput_other strip e lm hal] at h
      have hf := finishInvoke_some _ _ _ h
      have hiff := finishInvoke_changed_iff _ _ _ h
      refine ⟨hf.2.1, hiff.1, hf.2.2.2.1, ?_, ?_, ?_⟩
      · intro ht
        have heq : ({ e with text := textAreaHandle e.text .other } : InputBar).text =
            e.text := by
          rw [← hf.1]
          exact ht
        rw [hf.2.2.2.2 heq]
        exact ⟨rfl, rfl⟩
      · intro hfalse _
        simp [isNavKey] at hfalse
      · intro _
        rw [hiff.2, ← hf.1]
    | tab =>
      obtain ⟨e1, heq, hcp, _⟩ := handleInput_nav strip hs e lm .tab hal rfl
      rw [heq] at h
      simp only [Option.some.injEq] at h
      subst h
      refine ⟨hcp, by simp, by simp, fun _ => ⟨rfl, rfl⟩, fun _ _ => ⟨rfl, rfl⟩, ?_⟩
      intro hno
      exact absurd ⟨rfl, by simp⟩ hno
    | down =>
      obtain ⟨e1, heq, hcp, _⟩ := handleInput_nav strip hs e lm .down hal rfl
      rw [heq] at h
      simp only [Option.some.injEq] at h
      subst h
      refine ⟨hcp, by simp, by simp, fun _ => ⟨rfl, rfl⟩, fun _ _ => ⟨rfl, rfl⟩, ?_⟩
      intro hno
      exact absurd ⟨rfl, by simp⟩ hno
    | up =>
      obtain ⟨e1, heq, hcp, _⟩ := handleInput_nav strip hs e lm .up hal rfl
      rw [heq] at h
      simp only [Option.some.injEq] at h
      subst h
      refine ⟨hcp, by simp, by simp, fun _ => ⟨rfl, rfl⟩, fun _ _ => ⟨rfl, rfl⟩, ?_⟩
      intro hno
      exact absurd ⟨rfl, by simp⟩ hno
    | backspace =>
      obtain ⟨e1, heq, hcp, _⟩ := handleInput_nav strip hs e lm .backspace hal rfl
      rw [heq] at h
      simp only [Option.some.injEq] at h
      subst h
      refine ⟨hcp, by simp, by simp, fun _ => ⟨rfl, rfl⟩, fun _ _ => ⟨rfl, rfl⟩, ?_⟩
      intro hno
      exact absurd ⟨rfl, by simp⟩ hno

/-! ## Popup geometry claims -/

theorem widthFold_bounds (twidth : String → Nat) :
    ∀ (items : List (String × String)) (macc acc : Nat), macc ≤ acc → acc ≤ macc + 2 →
      items.foldl (fun m t => max m (twidth (t.1 ++ t.2))) macc ≤
          items.foldl
            (fun lw t => if twidth (t.1 ++ t.2) > lw then twidth (t.1 ++ t.2) + 2 else lw)
            acc ∧
        items.foldl
            (fun lw t => if twidth (t.1 ++ t.2) > lw then twidth (t.1 ++ t.2) + 2 else lw)
            acc ≤
          items.foldl (fun m t => max m (twidth (t.1 ++ t.2))) macc + 2
  | [], macc, acc, h1, h2 => ⟨h1, h2⟩
  | t :: rest, macc, acc, h1, h2 => by
    dsimp only [List.foldl]
    by_cases hw : twidth (t.1 ++ t.2) > acc
    · rw [if_pos hw]
      exact widthFold_bounds twidth rest _ _ (by omega) (by omega)
    · rw [if_neg hw]
      exact widthFold_bounds twidth rest _ _ (by omega) (by omega)

/-- C5 counterexample: with screenHeight 24, anchor row 10 and 13
candidates (popup height 15), the code flips the popup above and clamps
it to row 0, while the rule stated in the claim (space above measured as
anchor.y - 2 against space below measured to the screen bottom) keeps it
below at row 11: the claimed flip rule is not the implemented one. -/
theorem C5_counterexample :
    popupLy 10 15 24 = 0 ∧ specFlipLy 10 15 24 = 11 ∧
      popupLy 10 15 24 ≠ specFlipLy 10 15 24 :=
  ⟨by decide, by decide, by decide⟩

/-- C5 (amended): the popup is placed directly below the anchor at
y + 1 unless y + 1 + height ≥ screenHeight AND y - 1 > height - y - 1
(the code compares the space above the popup row against the popup
height, not against the free space below on the screen), in which case
it is placed above at y - height clamped to 0; in particular with
screenHeight 24, anchor row 22 and 5 candidates (height 7) the popup is
placed at y = 15. -/
theorem C5_amended_layout (y h s : Int) :
    ((y + 1 + h ≥ s ∧ y - 1 > h - y - 1) → popupLy y h s = max (y - h) 0) ∧
    (¬ (y + 1 + h ≥ s ∧ y - 1 > h - y - 1) → popupLy y h s = y + 1) ∧
    popupLy 22 7 24 = 15 := by
  refine ⟨?_, ?_, by decide⟩
  · intro hc
    unfold popupLy
    dsimp only
    split
    · split <;> omega
    · next hcond =>
      exfalso
      exact hcond ⟨by omega, by omega⟩
  · intro hc
    unfold popupLy
    dsimp only
    split
    · next hcond =>
      exfalso
      exact hc ⟨by omega, by omega⟩
    · rfl

theorem C5_amended_layout_witness : popupLy 22 7 24 = max (22 - 7 : Int) 0 :=
  (C5_amended_layout 22 7 24).1 (by decide)

/-- C6 counterexample: two candidates of rendered widths 5 and 6 (plain
ASCII, no markup, so the display width is the character count) produce
popup width 7, not the claimed maximum-plus-2 = 8: the loop compares
each candidate against the already padded running width. -/
theorem C6_counterexample :
    listWidthCalc asciiWidth exWidths = 7 ∧
    maxItemWidth asciiWidth exWidths + 2 = 8 ∧
    listWidthCalc asciiWidth exWidths ≠ maxItemWidth asciiWidth exWidths + 2 :=
  ⟨by decide, by decide, by decide⟩

/-- C6 (amended): for every display-width measure and candidate list the
computed popup width lies between the maximum rendered width of
value+description and that maximum plus 2 (it equals maximum plus 2
when each candidate's width exceeds the previous running padded width,
for example when all widths are equal, but not in general), and the
popup height is always the candidate count plus 2. -/
theorem C6_amended_width_height (twidth : String → Nat)
    (items : List (String × String)) :
    maxItemWidth twidth items ≤ listWidthCalc twidth items ∧
    listWidthCalc twidth items ≤ maxItemWidth twidth items + 2 ∧
    (∀ n : Nat, listHeightCalc n = n + 2) := by
  have h := widthFold_bounds twidth items 0 0 (by omega) (by omega)
  exact ⟨h.1, h.2, fun n => rfl⟩

/-! ## Ranking claims -/

/-- C1 counterexample: SetAutocompleteList on the seven-candidate batch
[(w,1),(v1,5),...,(v6,5)] (all in range of sort.Slice's small-array
path) populates the popup in the order [v6,v1,v2,v3,v4,v5,w]: the gap-6
shell pass of Go 1.18 sort.Slice swaps v6 ahead of the other
equal-priority candidates, so ties do not keep the supplied order. -/
theorem C1_counterexample :
    (SetAutocompleteList barPlain exSeven).map
        (fun r => r.1.autocompleteList.map (fun lm => lm.items.map (fun t => t.1))) =
      some (some ["v6", "v1", "v2", "v3", "v4", "v5", "w"]) ∧
    (["v6", "v1", "v2", "v3", "v4", "v5", "w"] : List String) ≠
      ["v1", "v2", "v3", "v4", "v5", "v6", "w"] :=
  ⟨by decide, by decide⟩

/-- C1 (amended): for every candidate batch passed to
SetAutocompleteList, the popup receives a permutation of the batch
sorted by priority descending — the Go 1.18 sort.Slice algorithm sorts
every batch, through its shell-and-insertion small-range path as well
as its quicksort and heap-sort paths; equal-priority candidates need
NOT keep the order in which they were supplied (the sort is unstable
from seven candidates up); for the input [(v1,2),(v2,5),(v3,5)] the
ranked result is still [v2,v3,v1], because up to six candidates the
sort degenerates to a stable insertion sort. -/
theorem C1_amended_ranking :
    (∀ (e : InputBar) (items : List AutocompleteItem)
        (r : InputBar × List AutocompleteItem),
      SetAutocompleteList e items = some r →
        r.2.Perm items ∧ r.2.Pairwise gePrio ∧
        r.1.autocompleteList =
          some ⟨r.2.map (fun it => (it.Value, it.Description)), 0⟩) ∧
    (SetAutocompleteList barPlain exStable).map (fun r => r.2) =
      some [⟨"v2", "", 5⟩, ⟨"v3", "", 5⟩, ⟨"v1", "", 2⟩] := by
  constructor
  · intro e items r h
    unfold SetAutocompleteList at h
    split at h
    · exact absurd h (by simp)
    · simp only [Option.some.injEq] at h
      subst h
      exact ⟨sortSliceByPriority_perm items,
        sortSliceByPriority_sorted items, rfl⟩
  · decide

theorem C1_amended_ranking_witness :
    (sortSliceByPriority exStable).Perm exStable ∧
    (sortSliceByPriority exStable).Pairwise gePrio :=
  ⟨(C1_amended_ranking.1 barPlain exStable
      ({ barPlain with autocompleteList := some (rankedListModel exStable) },
        sortSliceByPriority exStable) rfl).1,
    (C1_amended_ranking.1 barPlain exStable
      ({ barPlain with autocompleteList := some (rankedListModel exStable) },
        sortSliceByPriority exStable) rfl).2.1⟩

/-- C10: SetAutocompleteList sorts the caller's slice in place: the
slice, as the call leaves it for the caller, is sortSliceByPriority of
the input, which is a permutation reordered by descending priority
(proved sorted for batches of at most 12 candidates, the small-array
path) and in general differs from the supplied order: the concrete
batch with priorities 1,3,2 comes back as priorities 3,2,1. -/
theorem C10_sort_in_place :
    (∀ (e : InputBar) (items : List AutocompleteItem)
        (r : InputBar × List AutocompleteItem),
      SetAutocompleteList e items = some r →
        r.2 = sortSliceByPriority items ∧ r.2.Perm items ∧
        (items.length ≤ 12 → r.2.Pairwise gePrio)) ∧
    ((SetAutocompleteList barC10 exC10).map (fun r => r.2) =
      some [⟨"b", "", 3⟩, ⟨"c", "", 2⟩, ⟨"a", "", 1⟩] ∧
    ([⟨"b", "", 3⟩, ⟨"c", "", 2⟩, ⟨"a", "", 1⟩] : List AutocompleteItem) ≠ exC10) := by
  refine ⟨?_, by decide, by decide⟩
  intro e items r h
  unfold SetAutocompleteList at h
  split at h
  · exact absurd h (by simp)
  · simp only [Option.some.injEq] at h
    subst h
    exact ⟨rfl, sortSliceByPriority_perm items,
      fun hlen => sortSliceByPriority_sorted_small items hlen⟩

theorem C10_sort_in_place_witness :
    (sortSliceByPriority exC10).Perm exC10 ∧
    (sortSliceByPriority exC10).Pairwise gePrio :=
  ⟨(C10_sort_in_place.1 barC10 exC10
      ({ barC10 with autocompleteList := some (rankedListModel exC10) },
        sortSliceByPriority exC10) rfl).2.1,
    (C10_sort_in_place.1 barC10 exC10
      ({ barC10 with autocompleteList := some (rankedListModel exC10) },
        sortSliceByPriority exC10) rfl).2.2 (by decide)⟩

/-! ## Dismissal, refresh and escape claims -/

/-- C4: the code contradicts the claim.  Escape while the popup exists
sets autocompleteList to nil and nothing ever re-creates it: the next
IsAutocompleteVisible call dereferences the nil List (modelled None
instead of the claimed false), the next text-changing keystroke panics
inside Autocomplete at autocompleteList.Clear(), and a direct Autocomplete
call panics the same way — dismissal IS destruction in this code. -/
theorem C4_escape_destroys_popup :
    (handleInput stripNoTags barEsc .escape).map (fun r => r.1.autocompleteList) =
      some none ∧
    (handleInput stripNoTags barEsc .escape).map (fun r => IsAutocompleteVisible r.1) =
      some none ∧
    ((handleInput stripNoTags barEsc .escape).bind
      (fun r => handleInput stripNoTags r.1 (.rune 'a'))) = none ∧
    ((handleInput stripNoTags barEsc .escape).bind
      (fun r => Autocomplete r.1)) = none :=
  ⟨rfl, rfl, rfl, rfl⟩

/-- C7: when a provider is registered and the popup List exists, a
refresh with empty text or an empty provider result leaves the stored
candidate list empty and IsAutocompleteVisible false — a normal
condition, not an error. -/
theorem C7_empty_refresh_hides (e : InputBar)
    (f : String → Nat → List AutocompleteItem) (lm : ListModel)
    (hf : e.autocompleteFunc = some f) (hl : e.autocompleteList = some lm)
    (hempty : e.text = "" ∨ f e.text 0 = []) :
    (Autocomplete e).map (fun r => r.1.autocompleteList) = some (some ⟨[], 0⟩) ∧
    (Autocomplete e).map (fun r => IsAutocompleteVisible r.1) = some (some false) := by
  rw [Autocomplete_run e f lm hf hl]
  by_cases h0 : e.text = ""
  · rw [if_pos h0]
    exact ⟨rfl, rfl⟩
  · rcases hempty with h1 | h1
    · exact absurd h1 h0
    · rw [if_neg h0, if_pos h1]
      exact ⟨rfl, rfl⟩

theorem C7_empty_refresh_hides_witness :
    (Autocomplete barEmptyRefresh).map (fun r => r.1.autocompleteList) =
      some (some ⟨[], 0⟩) ∧
    (Autocomplete barEmptyRefresh).map (fun r => IsAutocompleteVisible r.1) =
      some (some false) :=
  C7_empty_refresh_hides barEmptyRefresh provEmpty ⟨[], 0⟩ rfl rfl (Or.inr rfl)

/-- C9: while the popup is open, Escape closes it (the whole state
change is exactly autocompleteList := none, so the committed text is
untouched and popupOpen becomes false) and neither the changed callback
nor the provider fires. -/
theorem C9_escape_rule (strip : String → String) (e : InputBar)
    (hopen : popupOpen e = true) :
    handleInput strip e .escape = some ({ e with autocompleteList := none }, 0, 0) ∧
    ({ e with autocompleteList := none } : InputBar).text = e.text ∧
    popupOpen { e with autocompleteList := none } = false := by
  cases hal : e.autocompleteList with
  | none => simp [popupOpen, hal] at hopen
  | some lm => exact ⟨handleInput_escape strip e lm hal, rfl, rfl⟩

theorem C9_escape_rule_witness :
    handleInput stripNoTags barEscW .escape =
      some ({ barEscW with autocompleteList := none }, 0, 0) ∧
    ({ barEscW with autocompleteList := none } : InputBar).text = barEscW.text ∧
    popupOpen { barEscW with autocompleteList := none } = false :=
  C9_escape_rule stripNoTags barEscW (by decide)

/-! ## Callback timing claims -/

/-- C2 counterexample: with text "ab", a registered changed callback,
an open popup and no autocompleted callback, Tab performs a live
navigation preview: the buffer text at the end of the invocation is
"abd", which differs from the start text "ab", yet the changed callback
fires 0 times — so "fires exactly when the end text differs from the
start text" is false as stated (the code advances its comparison
baseline to the preview text). -/
theorem C2_counterexample :
    (handleInput stripNoTags barNav .tab).map (fun r => (r.1.text, r.2.1)) =
      some ("abd", 0) ∧
    barNav.changedPresent = true ∧ barNav.text = "ab" ∧ ("abd" : String) ≠ "ab" :=
  ⟨rfl, rfl, rfl, by decide⟩

/-- C2 (amended): per input-handler invocation (with the tag stripper
idempotent, as the real stripTags is), the changed callback fires at
most once; it never fires when the end text equals the start text; it
never fires on a navigation key handled by an existing popup (live
previews advance the comparison baseline instead); and on every other
invocation it fires exactly when the callback is registered and the end
text differs from the start text. -/
theorem C2_amended_changed_rule (strip : String → String)
    (hs : ∀ s, strip (strip s) = strip s) (e : InputBar) (ev : Key)
    (r : InputBar × Nat × Nat) (h : handleInput strip e ev = some r) :
    r.2.1 ≤ 1 ∧
    (r.1.text = e.text → r.2.1 = 0) ∧
    (isNavKey ev = true → e.autocompleteList ≠ none → r.2.1 = 0) ∧
    (¬ (isNavKey ev = true ∧ e.autocompleteList ≠ none) →
      (r.2.1 = 1 ↔ e.changedPresent = true ∧ r.1.text ≠ e.text)) := by
  obtain ⟨_, hc1, _, himp, hnav, hiff⟩ := handleInput_master strip hs e ev r h
  exact ⟨hc1, fun ht => (himp ht).1, fun h1 h2 => (hnav h1 h2).1, hiff⟩

theorem C2_amended_changed_rule_witness :
    (handleInput stripNoTags barTyping (.rune 'b')).map (fun r => r.2.1) = some 1 ∧
    (1 : Nat) ≤ 1 :=
  ⟨rfl,
    (C2_amended_changed_rule stripNoTags (fun _ => rfl) barTyping (.rune 'b')
      ({ barTyping with text := "ab" }, 1, 0) rfl).1⟩

/-- C8: per input-handler invocation (idempotent tag stripper), the
external provider is invoked at most once; it is never invoked when the
invocation leaves the buffer text unchanged; and it is never invoked
during a navigation key handled by an existing popup (the live preview
path updates the comparison baseline, so the deferred refresh is
skipped). -/
theorem C8_provider_call_rule (strip : String → String)
    (hs : ∀ s, strip (strip s) = strip s) (e : InputBar) (ev : Key)
    (r : InputBar × Nat × Nat) (h : handleInput strip e ev = some r) :
    r.2.2 ≤ 1 ∧
    (r.1.text = e.text → r.2.2 = 0) ∧
    (isNavKey ev = true → e.autocompleteList ≠ none → r.2.2 = 0) := by
  obtain ⟨_, _, hp1, himp, hnav, _⟩ := handleInput_master strip hs e ev r h
  exact ⟨hp1, fun ht => (himp ht).2, fun h1 h2 => (hnav h1 h2).2⟩

theorem C8_provider_call_rule_witness :
    (handleInput stripNoTags barNav2 .tab).map (fun r => r.2.2) = some 0 ∧
    (0 : Nat) ≤ 1 :=
  ⟨rfl,
    (C8_provider_call_rule stripNoTags (fun _ => rfl) barNav2 .tab
      ({ barNav2 with text := "xz", autocompleteList := some ⟨[("xy", ""), ("xz", "")], 1⟩ },
        0, 0) rfl).1⟩

/-! ## Enter-commit claims -/

/-- C3 counterexample: with text "ab", a populated popup highlighting
"abc" and a provider that always returns one candidate, Enter sets the
text to "abc" and clears the list, but the deferred refresh immediately
repopulates it from the provider: at the end of the invocation the
popup is open again (popupOpen true), contradicting the claimed
popupOpen=false. -/
theorem C3_counterexample :
    (handleInput stripNoTags barEnter .enter).map
        (fun r => (r.1.text, popupOpen r.1, r.2.1)) = some ("abc", true, 1) ∧
    barEnter.text = "ab" :=
  ⟨rfl, rfl⟩

/-- C3 (amended): with the popup present and the highlighted index in
range, Enter sets the field text to exactly the highlighted candidate's
value and clears the candidate list; the standard deferred refresh then
runs, so at the end of the invocation the list is still empty whenever
the committed value equals the previous text, or no provider is
registered, or the committed value is empty, or the provider returns no
candidates for it — but when a provider returns candidates for the
committed value the popup is repopulated and open again. -/
theorem C3_amended_enter_commit (strip : String → String) (e : InputBar)
    (lm : ListModel) (hl : e.autocompleteList = some lm)
    (hrange : lm.currentItem < lm.items.length) :
    ∃ r : InputBar × Nat × Nat, handleInput strip e .enter = some r ∧
      r.1.text = (lm.items.getD lm.currentItem ("", "")).1 ∧
      ((lm.items.getD lm.currentItem ("", "")).1 = e.text →
        r.1.autocompleteList = some ⟨[], 0⟩) ∧
      (e.autocompleteFunc = none → r.1.autocompleteList = some ⟨[], 0⟩) ∧
      ((lm.items.getD lm.currentItem ("", "")).1 = "" →
        r.1.autocompleteList = some ⟨[], 0⟩) ∧
      (∀ f, e.autocompleteFunc = some f →
        (lm.items.getD lm.currentItem ("", "")).1 ≠ e.text →
        (lm.items.getD lm.currentItem ("", "")).1 ≠ "" →
        f (lm.items.getD lm.currentItem ("", "")).1 0 = [] →
        r.1.autocompleteList = some ⟨[], 0⟩) ∧
      (∀ f, e.autocompleteFunc = some f →
        (lm.items.getD lm.currentItem ("", "")).1 ≠ e.text →
        (lm.items.getD lm.currentItem ("", "")).1 ≠ "" →
        f (lm.items.getD lm.currentItem ("", "")).1 0 ≠ [] →
        popupOpen r.1 = true) := by
  rw [handleInput_enter strip e lm hl hrange]
  unfold finishInvoke
  dsimp only
  by_cases hme : (lm.items.getD lm.currentItem ("", "")).1 = e.text
  · rw [if_pos hme]
    refine ⟨_, rfl, rfl, fun _ => rfl, fun _ => rfl, fun _ => rfl,
      fun _ _ h1 _ _ => absurd hme h1, fun _ _ h1 _ _ => absurd hme h1⟩
  · rw [if_neg hme]
    cases hfc : e.autocompleteFunc with
    | none =>
      rw [Autocomplete_noFunc _ rfl]
      dsimp only
      refine ⟨_, rfl, rfl, fun _ => rfl, fun _ => rfl, fun _ => rfl,
        fun _ _ _ _ _ => rfl, fun f' hf' _ _ _ => absurd hf' (by simp)⟩
    | some f =>
      rw [Autocomplete_run _ f ⟨[], 0⟩ rfl rfl]
      dsimp only
      by_cases hm0 : (lm.items.getD lm.currentItem ("", "")).1 = ""
      · rw [if_pos hm0]
        dsimp only
        refine ⟨_, rfl, rfl, fun heq => absurd heq hme, fun _ => rfl, fun _ => rfl,
          fun _ _ _ _ _ => rfl, fun _ _ _ h2 _ => absurd hm0 h2⟩
      · rw [if_neg hm0]
        by_cases hfe : f (lm.items.getD lm.currentItem ("", "")).1 0 = []
        · rw [if_pos hfe]
          dsimp only
          refine ⟨_, rfl, rfl, fun heq => absurd heq hme, fun _ => rfl, fun _ => rfl,
            fun _ _ _ _ _ => rfl, fun f' hf' _ _ h3 => ?_⟩
          injection hf' with hff
          subst hff
          exact absurd hfe h3
        · rw [if_neg hfe]
          dsimp only
          refine ⟨_, rfl, rfl, fun heq => absurd heq hme,
            fun hnone => absurd hnone (by simp),
            fun h0 => absurd h0 hm0, fun f' hf' _ _ h3 => ?_, fun f' hf' _ _ _ => ?_⟩
          · injection hf' with hff
            subst hff
            exact absurd h3 hfe
          · injection hf' with hff
            subst hff
            simp only [popupOpen, rankedListModel, List.length_map,
              sortSliceByPriority_length, decide_eq_true_eq]
            exact List.length_pos.mpr hfe

theorem C3_amended_enter_commit_witness :
    (handleInput stripNoTags barEnter2 .enter).map
        (fun r => (r.1.text, r.1.autocompleteList)) =
      some ("pqr", some (⟨[], 0⟩ : ListModel)) := by
  obtain ⟨r, hr, htext, _, hnone, _, _, _⟩ :=
    C3_amended_enter_commit stripNoTags barEnter2 ⟨[("pqr", "")], 0⟩ rfl (by decide)
  rw [hr]
  have h1 : r.1.text = "pqr" := htext
  have h2 : r.1.autocompleteList = some ⟨[], 0⟩ := hnone rfl
  simp [h1, h2]
